import Mathlib

/-!
Verification of the WebSiftGPU repository (SIFT keypoint detection and
descriptor matching on WebGPU, with a CPU reference implementation).

Shallow embedding conventions:
* GPU f32 / JS number arithmetic is modelled over the rationals; square
  roots, which the rationals lack, are passed as explicit arguments
  constrained by the predicate IsSqrtOf, and transcendental values
  (pi, exp) appear only inside theorem statements over the reals.
* Textures are total functions from integer coordinates to rationals.
* Storage-buffer loops become List folds in program order.
-/

/-- Relation standing in for Math.sqrt / WGSL sqrt: s is the
nonnegative square root of x. -/
def IsSqrtOf (s x : ℚ) : Prop := 0 ≤ s ∧ s * s = x

instance (s x : ℚ) : Decidable (IsSqrtOf s x) := by
  unfold IsSqrtOf; infer_instance

/-! ## Descriptor matcher
Sources: src/sift/src/shaders/matching/matcher.wgsl,
src/sift/src/shaders/matching/matcher_guided.wgsl,
src/sift/src/matcher-webgpu.js, and the CPU matcher (MatcherCPU.matchStatic).
-/

/-- DESC_DIM from the shader constants: descriptors have 128 dimensions. -/
abbrev DESC_DIM : ℕ := 128

/-- Descriptor: 128 float components. -/
abbrev Descr : Type := Fin DESC_DIM → ℚ

/-- Squared L2 distance between two descriptors, accumulated in loop
order exactly as the inner k-loop of matcher.wgsl (lines 35-40). -/
def d2 (a b : Descr) : ℚ :=
  (List.finRange DESC_DIM).foldl (fun acc k => acc + (a k - b k) * (a k - b k)) 0

/-- Running state of the best/second search in matcher.wgsl:
bestIdx, bestDistSq, secondDistSq. -/
structure MatchState where
  bestIdx : ℤ
  bestDistSq : ℚ
  secondDistSq : ℚ
deriving DecidableEq

/-- The 1e30 sentinel used by the GPU matcher shaders for
bestDistSq / secondDistSq before any candidate is seen. The shader
literal rounds to the float32 value 1.0000000150474662e30; it is
modelled as the exact rational 10^30, so concrete instances below
stay away from the boundary where that last-ulp gap could flip a
comparison, keeping a margin of at least a factor 100. -/
def SENTINEL : ℚ := 10 ^ 30

/-- Loop body of matcher.wgsl lines 42-48: update best/second squared
distances and best index with candidate (index, distSq). -/
def matchStep (st : MatchState) (c : ℤ × ℚ) : MatchState :=
  if c.2 < st.bestDistSq then ⟨c.1, c.2, st.bestDistSq⟩
  else if c.2 < st.secondDistSq then ⟨st.bestIdx, st.bestDistSq, c.2⟩
  else st

/-- Initial state of matcher.wgsl lines 25-27: bestIdx -1, both
distances at the 1e30 sentinel. -/
def matchInit : MatchState := ⟨-1, SENTINEL, SENTINEL⟩

/-- The candidate loop of matcher.wgsl (lines 30-49) over a list of
(candidate index, squared distance) pairs. -/
def matchLoop (cs : List (ℤ × ℚ)) : MatchState := cs.foldl matchStep matchInit

/-- Candidate stream of the loop of matcher.wgsl starting at index j:
each descriptor of B paired with its index and squared distance. -/
def candidatesFrom (a : Descr) : ℕ → List Descr → List (ℤ × ℚ)
  | _, [] => []
  | j, b :: rest => ((j : ℤ), d2 a b) :: candidatesFrom a (j + 1) rest

/-- Candidates streamed by one thread of matcher.wgsl: every index of B
(from 0) paired with its squared distance to the query descriptor. -/
def matcherCandidates (a : Descr) (B : List Descr) : List (ℤ × ℚ) :=
  candidatesFrom a 0 B

/-- Per-query result of the plain GPU matcher. -/
def matchResult (a : Descr) (B : List Descr) : MatchState :=
  matchLoop (matcherCandidates a B)

/-- Host-side readback filter of MatcherWebGPU.match (matcher-webgpu.js
lines 140-151): keep (i, bestIdx) iff bestIdx >= 0 and
bestDistSq < ratio^2 * secondDistSq. -/
def matchJS (A B : List Descr) (rho : ℚ) : List (ℕ × ℤ) :=
  A.enum.filterMap (fun p =>
    if 0 ≤ (matchResult p.2 B).bestIdx
        ∧ (matchResult p.2 B).bestDistSq < rho * rho * (matchResult p.2 B).secondDistSq
    then some (p.1, (matchResult p.2 B).bestIdx) else none)

/-! Spec-side notions for the claims: the minimum and the
second-smallest squared distance over B, read off a sorted copy of the
distance list padded with the two sentinel values the shader starts
from. -/

/-- Distance list of a query against B, padded with the two sentinel
entries, sorted ascending. -/
def sortedPaddedDists (a : Descr) (B : List Descr) : List ℚ :=
  ((B.map (d2 a)) ++ [SENTINEL, SENTINEL]).insertionSort (· ≤ ·)

/-- Minimum squared distance over B (sentinel-padded). -/
def minDist (a : Descr) (B : List Descr) : ℚ := (sortedPaddedDists a B).getD 0 0

/-- Second-smallest squared distance over B, with multiplicity
(sentinel-padded). -/
def secondDist (a : Descr) (B : List Descr) : ℚ := (sortedPaddedDists a B).getD 1 0

/-- Fold-style minimum over candidate distances starting from b. -/
def distMin (cs : List (ℤ × ℚ)) (b : ℚ) : ℚ := (cs.map Prod.snd).foldl min b

/-- Index carried by the first candidate whose distance attains the
minimum (idx when none does improve on b). -/
def firstArgmin (cs : List (ℤ × ℚ)) (b : ℚ) (idx : ℤ) : ℤ :=
  ((cs.find? (fun c => c.2 ≤ distMin cs b)).map Prod.fst).getD idx

/-- The claim C4 membership predicate, spec side: j is an index of B
achieving the minimum squared distance from a. -/
def achievesMinDist (a : Descr) (B : List Descr) (j : ℕ) : Prop :=
  ∃ bj, B.get? j = some bj ∧ ∀ b ∈ B, d2 a bj ≤ d2 a b

instance (a : Descr) (B : List Descr) (j : ℕ) : Decidable (achievesMinDist a B j) := by
  unfold achievesMinDist
  cases B.get? j with
  | none => exact isFalse (by simp)
  | some bj => exact decidable_of_iff (∀ b ∈ B, d2 a bj ≤ d2 a b) (by simp)

/-! ### Characterization of the best/second fold -/

/-- Value-only projection of matchStep. -/
def pairStep (p : ℚ × ℚ) (x : ℚ) : ℚ × ℚ :=
  if x < p.1 then (x, p.1) else if x < p.2 then (p.1, x) else p

theorem matchStep_dists (st : MatchState) (c : ℤ × ℚ) :
    ((matchStep st c).bestDistSq, (matchStep st c).secondDistSq)
      = pairStep (st.bestDistSq, st.secondDistSq) c.2 := by
  unfold matchStep pairStep
  by_cases h1 : c.2 < st.bestDistSq <;> by_cases h2 : c.2 < st.secondDistSq <;>
    simp [h1, h2]

theorem matchStep_idx (st : MatchState) (c : ℤ × ℚ) :
    (matchStep st c).bestIdx = (if c.2 < st.bestDistSq then c.1 else st.bestIdx) := by
  unfold matchStep
  by_cases h1 : c.2 < st.bestDistSq <;> by_cases h2 : c.2 < st.secondDistSq <;>
    simp [h1, h2]

theorem matchStep_best (st : MatchState) (c : ℤ × ℚ) :
    (matchStep st c).bestDistSq = min st.bestDistSq c.2 := by
  unfold matchStep
  rcases lt_trichotomy c.2 st.bestDistSq with h | h | h
  · simp [h, min_eq_right h.le]
  · rw [h, min_self]
    simp only [lt_irrefl, if_false]
    split <;> rfl
  · have hnot : ¬ c.2 < st.bestDistSq := not_lt.mpr h.le
    by_cases h2 : c.2 < st.secondDistSq <;> simp [hnot, h2, min_eq_left h.le]

/-- pairStep inserted into a list whose first two entries are ordered:
the new first two entries carry the values of pairStep of the old ones. -/
theorem orderedInsert_pairStep (x t0 t1 : ℚ) (tr : List ℚ) (h : t0 ≤ t1) :
    ∃ u0 u1 : ℚ, ∃ ur : List ℚ,
      List.orderedInsert (· ≤ ·) x (t0 :: t1 :: tr) = u0 :: u1 :: ur
      ∧ (u0, u1) = pairStep (t0, t1) x
      ∧ u0 ≤ u1 := by
  unfold pairStep
  rcases lt_trichotomy x t0 with hx | hx | hx
  · -- x < t0: insert at the front; pairStep takes its first branch
    refine ⟨x, t0, t1 :: tr, ?_, ?_, hx.le⟩
    · simp [List.orderedInsert, hx.le]
    · simp [hx]
  · -- x = t0: insert at the front; pairStep values coincide because x = t0
    subst hx
    have hlt : ¬ x < x := lt_irrefl x
    refine ⟨x, x, t1 :: tr, ?_, ?_, le_refl x⟩
    · simp [List.orderedInsert, le_refl]
    · by_cases hs : x < t1
      · simp [hlt, hs]
      · have ht : t1 = x := le_antisymm (not_lt.mp hs) h
        simp [hlt, hs, ht]
  · -- t0 < x
    have hx0 : ¬ x ≤ t0 := not_le.mpr hx
    have hx0lt : ¬ x < t0 := not_lt.mpr hx.le
    rcases lt_trichotomy x t1 with hs | hs | hs
    · -- t0 < x < t1: insert in second position
      refine ⟨t0, x, t1 :: tr, ?_, ?_, hx.le⟩
      · simp [List.orderedInsert, hx0, hs.le]
      · simp [hx0lt, hs]
    · -- x = t1: insert in second position; values coincide
      subst hs
      refine ⟨t0, x, x :: tr, ?_, ?_, hx.le⟩
      · simp [List.orderedInsert, hx0, le_refl]
      · simp [hx0lt, lt_irrefl]
    · -- t1 < x: insert somewhere in the tail
      have hx1 : ¬ x ≤ t1 := not_le.mpr hs
      have hx1lt : ¬ x < t1 := not_lt.mpr hs.le
      refine ⟨t0, t1, List.orderedInsert (· ≤ ·) x tr, ?_, ?_, h⟩
      · simp [List.orderedInsert, hx0, hx1]
      · simp [hx0lt, hx1lt]

/-- Repeated ordered insertion, mirroring the order in which the match
loop consumes candidate distances. -/
def insFold (xs : List ℚ) (l : List ℚ) : List ℚ :=
  xs.foldl (fun acc x => List.orderedInsert (· ≤ ·) x acc) l

theorem insFold_pairStep : ∀ (xs : List ℚ) (t0 t1 : ℚ) (tr : List ℚ), t0 ≤ t1 →
    ∃ u0 u1 : ℚ, ∃ ur : List ℚ,
      insFold xs (t0 :: t1 :: tr) = u0 :: u1 :: ur
      ∧ (u0, u1) = xs.foldl pairStep (t0, t1)
      ∧ u0 ≤ u1 := by
  intro xs
  induction xs with
  | nil => intro t0 t1 tr h; exact ⟨t0, t1, tr, rfl, rfl, h⟩
  | cons x rest ih =>
    intro t0 t1 tr h
    obtain ⟨u0, u1, ur, heq, hpair, hle⟩ := orderedInsert_pairStep x t0 t1 tr h
    obtain ⟨v0, v1, vr, heq2, hpair2, hle2⟩ := ih u0 u1 ur hle
    refine ⟨v0, v1, vr, ?_, ?_, hle2⟩
    · show insFold rest (List.orderedInsert (· ≤ ·) x (t0 :: t1 :: tr)) = _
      rw [heq]; exact heq2
    · rw [hpair2, List.foldl_cons, ← hpair]

theorem insFold_perm : ∀ (xs l : List ℚ), List.Perm (insFold xs l) (l ++ xs) := by
  intro xs
  induction xs with
  | nil => intro l; simp [insFold]
  | cons x rest ih =>
    intro l
    have h1 : insFold (x :: rest) l = insFold rest (List.orderedInsert (· ≤ ·) x l) := rfl
    rw [h1]
    have p1 : List.Perm (insFold rest (List.orderedInsert (· ≤ ·) x l))
        (List.orderedInsert (· ≤ ·) x l ++ rest) := ih _
    have p2 : List.Perm (List.orderedInsert (· ≤ ·) x l ++ rest) ((x :: l) ++ rest) :=
      (List.perm_orderedInsert _ x l).append_right rest
    have p3 : List.Perm ((x :: l) ++ rest) (l ++ x :: rest) := List.perm_middle.symm
    exact (p1.trans p2).trans p3

theorem insFold_sorted : ∀ (xs l : List ℚ), l.Sorted (· ≤ ·) →
    (insFold xs l).Sorted (· ≤ ·) := by
  intro xs
  induction xs with
  | nil => intro l h; exact h
  | cons x rest ih => intro l h; exact ih _ (h.orderedInsert x l)

/-- Folding ordered insertion from a sorted start is insertion sort of
the concatenation. -/
theorem insFold_eq_insertionSort (xs l : List ℚ) (h : l.Sorted (· ≤ ·)) :
    insFold xs l = (l ++ xs).insertionSort (· ≤ ·) := by
  refine List.eq_of_perm_of_sorted ?_ (insFold_sorted xs l h) (List.sorted_insertionSort _ _)
  exact (insFold_perm xs l).trans (List.perm_insertionSort _ _).symm

theorem foldl_matchStep_dists (cs : List (ℤ × ℚ)) : ∀ (st : MatchState),
    ((cs.foldl matchStep st).bestDistSq, (cs.foldl matchStep st).secondDistSq)
      = (cs.map Prod.snd).foldl pairStep (st.bestDistSq, st.secondDistSq) := by
  induction cs with
  | nil => intro st; rfl
  | cons c rest ih =>
    intro st
    rw [List.foldl_cons, List.map_cons, List.foldl_cons, ih (matchStep st c),
      matchStep_dists]

/-- The best and second distances of the match loop are the first two
entries of the sorted sentinel-padded distance list. -/
theorem matchLoop_dists_sorted (cs : List (ℤ × ℚ)) :
    (matchLoop cs).bestDistSq
        = ((cs.map Prod.snd ++ [SENTINEL, SENTINEL]).insertionSort (· ≤ ·)).getD 0 0
    ∧ (matchLoop cs).secondDistSq
        = ((cs.map Prod.snd ++ [SENTINEL, SENTINEL]).insertionSort (· ≤ ·)).getD 1 0 := by
  have hpair := foldl_matchStep_dists cs matchInit
  simp only [matchInit] at hpair
  obtain ⟨u0, u1, ur, heq, hval, _⟩ :=
    insFold_pairStep (cs.map Prod.snd) SENTINEL SENTINEL [] le_rfl
  have hsorted : ([SENTINEL, SENTINEL] : List ℚ).Sorted (· ≤ ·) := by
    simp [List.sorted_cons]
  have hins := insFold_eq_insertionSort (cs.map Prod.snd) [SENTINEL, SENTINEL] hsorted
  have hperm : ((([SENTINEL, SENTINEL] : List ℚ) ++ cs.map Prod.snd).insertionSort (· ≤ ·))
      = ((cs.map Prod.snd ++ [SENTINEL, SENTINEL]).insertionSort (· ≤ ·)) := by
    refine List.eq_of_perm_of_sorted ?_ (List.sorted_insertionSort _ _)
      (List.sorted_insertionSort _ _)
    have q1 : List.Perm ((([SENTINEL, SENTINEL] : List ℚ) ++ cs.map Prod.snd).insertionSort (· ≤ ·))
        ([SENTINEL, SENTINEL] ++ cs.map Prod.snd) := List.perm_insertionSort _ _
    have q2 : List.Perm (([SENTINEL, SENTINEL] : List ℚ) ++ cs.map Prod.snd)
        (cs.map Prod.snd ++ [SENTINEL, SENTINEL]) := List.perm_append_comm
    have q3 : List.Perm (cs.map Prod.snd ++ ([SENTINEL, SENTINEL] : List ℚ))
        ((cs.map Prod.snd ++ [SENTINEL, SENTINEL]).insertionSort (· ≤ ·)) :=
      (List.perm_insertionSort _ _).symm
    exact (q1.trans q2).trans q3
  have h0 : (matchLoop cs).bestDistSq = u0 := by
    rw [← hval] at hpair
    exact (congrArg Prod.fst hpair).trans rfl
  have h1 : (matchLoop cs).secondDistSq = u1 := by
    rw [← hval] at hpair
    exact (congrArg Prod.snd hpair).trans rfl
  rw [← hperm, ← hins, heq, h0, h1]
  exact ⟨rfl, rfl⟩

/-- Index/best projection of the match loop: only bestIdx and
bestDistSq matter for the emitted index. -/
def bestFold (cs : List (ℤ × ℚ)) (p : ℤ × ℚ) : ℤ × ℚ :=
  cs.foldl (fun q c => if c.2 < q.2 then (c.1, c.2) else q) p

theorem foldl_matchStep_idx (cs : List (ℤ × ℚ)) : ∀ (st : MatchState),
    (cs.foldl matchStep st).bestIdx = (bestFold cs (st.bestIdx, st.bestDistSq)).1 := by
  induction cs with
  | nil => intro st; rfl
  | cons c rest ih =>
    intro st
    rw [List.foldl_cons, ih (matchStep st c)]
    show _ = (bestFold rest (if c.2 < st.bestDistSq then (c.1, c.2) else (st.bestIdx, st.bestDistSq))).1
    by_cases h : c.2 < st.bestDistSq
    · rw [matchStep_idx, matchStep_best, if_pos h, if_pos h, min_eq_right h.le]
    · rw [matchStep_idx, matchStep_best, if_neg h, if_neg h, min_eq_left (not_lt.mp h)]

theorem distMin_le_init : ∀ (cs : List (ℤ × ℚ)) (b : ℚ), distMin cs b ≤ b := by
  intro cs
  induction cs with
  | nil => intro b; exact le_refl b
  | cons c rest ih =>
    intro b
    have h1 : distMin (c :: rest) b = distMin rest (min b c.2) := rfl
    rw [h1]
    exact le_trans (ih (min b c.2)) (min_le_left _ _)

theorem distMin_cons (c : ℤ × ℚ) (rest : List (ℤ × ℚ)) (b : ℚ) :
    distMin (c :: rest) b = distMin rest (min b c.2) := rfl

/-- When the running minimum strictly improves on the start, some
candidate attains it, so the find of the first attainer succeeds. -/
theorem find_attainer_isSome : ∀ (cs : List (ℤ × ℚ)) (b : ℚ), distMin cs b < b →
    (cs.find? (fun c => c.2 ≤ distMin cs b)).isSome := by
  intro cs
  induction cs with
  | nil => intro b h; exact absurd h (lt_irrefl b)
  | cons c rest ih =>
    intro b h
    rw [distMin_cons] at h ⊢
    by_cases hc : c.2 ≤ distMin rest (min b c.2)
    · simp [List.find?, hc]
    · have hlt : distMin rest (min b c.2) < c.2 := not_le.mp hc
      have hmin : distMin rest (min b c.2) < min b c.2 := lt_min h hlt
      have := ih (min b c.2) hmin
      simpa [List.find?, hc] using this

theorem foldl_matchStep_bestD (cs : List (ℤ × ℚ)) : ∀ (st : MatchState),
    (cs.foldl matchStep st).bestDistSq = (bestFold cs (st.bestIdx, st.bestDistSq)).2 := by
  induction cs with
  | nil => intro st; rfl
  | cons c rest ih =>
    intro st
    rw [List.foldl_cons, ih (matchStep st c)]
    show _ = (bestFold rest (if c.2 < st.bestDistSq then (c.1, c.2) else (st.bestIdx, st.bestDistSq))).2
    by_cases h : c.2 < st.bestDistSq
    · rw [matchStep_idx, matchStep_best, if_pos h, if_pos h, min_eq_right h.le]
    · rw [matchStep_idx, matchStep_best, if_neg h, if_neg h, min_eq_left (not_lt.mp h)]

/-- Closed form of the best-index fold: the final best distance is the
running minimum, and the final index is that of the first candidate
attaining it (the start index when nothing improves on b). -/
theorem bestFold_char : ∀ (cs : List (ℤ × ℚ)) (idx : ℤ) (b : ℚ),
    bestFold cs (idx, b)
      = (if distMin cs b < b then firstArgmin cs b idx else idx, distMin cs b) := by
  intro cs
  induction cs with
  | nil =>
    intro idx b
    simp [bestFold, distMin, firstArgmin, lt_irrefl]
  | cons c rest ih =>
    intro idx b
    have hfold : bestFold (c :: rest) (idx, b)
        = bestFold rest (if c.2 < b then (c.1, c.2) else (idx, b)) := rfl
    by_cases hc : c.2 < b
    · have hminr : min b c.2 = c.2 := min_eq_right hc.le
      have hm : distMin (c :: rest) b = distMin rest c.2 := by
        rw [distMin_cons, hminr]
      have hmb : distMin rest c.2 < b := lt_of_le_of_lt (distMin_le_init _ _) hc
      rw [hfold, if_pos hc, ih c.1 c.2, hm, if_pos hmb]
      by_cases h2 : distMin rest c.2 < c.2
      · -- the minimum lies strictly inside rest; find skips c
        obtain ⟨y, hy⟩ := Option.isSome_iff_exists.mp (find_attainer_isSome rest c.2 h2)
        have hfst : firstArgmin (c :: rest) b idx = firstArgmin rest c.2 c.1 := by
          unfold firstArgmin
          simp only [hm]
          rw [List.find?_cons_of_neg _ (by simpa using not_le.mpr h2), hy]
          simp
        rw [if_pos h2, hfst]
      · -- c itself attains the minimum; find stops at c, index c.1
        have hceq : distMin rest c.2 = c.2 :=
          le_antisymm (distMin_le_init _ _) (not_lt.mp h2)
        have hfst : firstArgmin (c :: rest) b idx = c.1 := by
          unfold firstArgmin
          simp only [hm]
          rw [List.find?_cons_of_pos _ (by simpa using le_of_eq hceq.symm)]
          simp
        rw [if_neg h2, hfst]
    · have hminl : min b c.2 = b := min_eq_left (not_lt.mp hc)
      have hm : distMin (c :: rest) b = distMin rest b := by
        rw [distMin_cons, hminl]
      rw [hfold, if_neg hc, ih idx b, hm]
      by_cases h2 : distMin rest b < b
      · have hskip : ¬ (c.2 ≤ distMin rest b) :=
          not_le.mpr (lt_of_lt_of_le h2 (not_lt.mp hc))
        have hfst : firstArgmin (c :: rest) b idx = firstArgmin rest b idx := by
          unfold firstArgmin
          simp only [hm]
          rw [List.find?_cons_of_neg _ (by simpa using hskip)]
        rw [if_pos h2, if_pos h2, hfst]
      · rw [if_neg h2, if_neg h2]

theorem candidatesFrom_map_snd (a : Descr) (B : List Descr) : ∀ (j : ℕ),
    (candidatesFrom a j B).map Prod.snd = B.map (d2 a) := by
  induction B with
  | nil => intro j; rfl
  | cons b rest ih =>
    intro j
    show (d2 a b) :: (candidatesFrom a (j + 1) rest).map Prod.snd = _
    rw [ih (j + 1)]
    rfl

theorem candidates_map_snd (a : Descr) (B : List Descr) :
    (matcherCandidates a B).map Prod.snd = B.map (d2 a) :=
  candidatesFrom_map_snd a B 0

theorem matchResult_best (a : Descr) (B : List Descr) :
    (matchResult a B).bestDistSq = minDist a B := by
  have h := (matchLoop_dists_sorted (matcherCandidates a B)).1
  unfold matchResult
  rw [h, candidates_map_snd]
  rfl

theorem matchResult_second (a : Descr) (B : List Descr) :
    (matchResult a B).secondDistSq = secondDist a B := by
  have h := (matchLoop_dists_sorted (matcherCandidates a B)).2
  unfold matchResult
  rw [h, candidates_map_snd]
  rfl

theorem matchResult_idx (a : Descr) (B : List Descr) :
    (matchResult a B).bestIdx
      = if distMin (matcherCandidates a B) SENTINEL < SENTINEL
        then firstArgmin (matcherCandidates a B) SENTINEL (-1) else (-1) := by
  have h := foldl_matchStep_idx (matcherCandidates a B) matchInit
  have h2 : (matchResult a B).bestIdx
      = (bestFold (matcherCandidates a B) (-1, SENTINEL)).1 := h
  rw [h2, bestFold_char]

theorem distMin_eq_minDist (a : Descr) (B : List Descr) :
    distMin (matcherCandidates a B) SENTINEL = minDist a B := by
  have h1 := foldl_matchStep_bestD (matcherCandidates a B) matchInit
  have h2 := matchResult_best a B
  have h3 : (matchResult a B).bestDistSq
      = (bestFold (matcherCandidates a B) (-1, SENTINEL)).2 := h1
  rw [h2, bestFold_char] at h3
  exact h3.symm

theorem firstArgmin_mem (cs : List (ℤ × ℚ)) (b : ℚ) (idx : ℤ)
    (h : distMin cs b < b) :
    ∃ y ∈ cs, y.2 ≤ distMin cs b ∧ firstArgmin cs b idx = y.1 := by
  obtain ⟨y, hy⟩ := Option.isSome_iff_exists.mp (find_attainer_isSome cs b h)
  refine ⟨y, List.mem_of_find?_eq_some hy, ?_, ?_⟩
  · simpa using List.find?_some hy
  · unfold firstArgmin
    rw [hy]
    rfl

theorem candidatesFrom_fst_nonneg (a : Descr) (B : List Descr) : ∀ (j : ℕ),
    ∀ c ∈ candidatesFrom a j B, 0 ≤ c.1 := by
  induction B with
  | nil => intro j c hc; exact absurd hc (List.not_mem_nil c)
  | cons b rest ih =>
    intro j c hc
    rcases List.mem_cons.mp hc with h | h
    · rw [h]
      exact Int.natCast_nonneg j
    · exact ih (j + 1) c h

theorem matcherCandidates_fst_nonneg (a : Descr) (B : List Descr) :
    ∀ c ∈ matcherCandidates a B, 0 ≤ c.1 :=
  candidatesFrom_fst_nonneg a B 0

theorem matchResult_idx_nonneg_iff (a : Descr) (B : List Descr) :
    0 ≤ (matchResult a B).bestIdx ↔ minDist a B < SENTINEL := by
  rw [matchResult_idx]
  by_cases h : distMin (matcherCandidates a B) SENTINEL < SENTINEL
  · rw [if_pos h]
    constructor
    · intro _
      rw [← distMin_eq_minDist]
      exact h
    · intro _
      obtain ⟨y, hymem, _, hfe⟩ := firstArgmin_mem _ _ (-1) h
      rw [hfe]
      exact matcherCandidates_fst_nonneg a B y hymem
  · rw [if_neg h]
    constructor
    · intro h0
      exact absurd h0 (by norm_num)
    · intro hlt
      exact absurd ((distMin_eq_minDist a B) ▸ hlt) h


/-! ### Helper descriptors and distance values for concrete runs -/

/-- The all-zero descriptor. -/
def zeroDesc : Descr := fun _ => 0

/-- Descriptor with a single 1 in component 0. -/
def oneDesc : Descr := fun k => if (k : ℕ) = 0 then 1 else 0

theorem foldl_add_eq_sum {α : Type} (f : α → ℚ) : ∀ (l : List α) (acc : ℚ),
    l.foldl (fun acc k => acc + f k) acc = acc + (l.map f).sum := by
  intro l
  induction l with
  | nil => intro acc; simp
  | cons x rest ih =>
    intro acc
    rw [List.foldl_cons, ih (acc + f x), List.map_cons, List.sum_cons]
    ring

/-- The accumulation loop of d2 is the sum of squared component
differences. -/
theorem d2_eq_sum (a b : Descr) :
    d2 a b = ∑ k : Fin DESC_DIM, (a k - b k) * (a k - b k) := by
  unfold d2
  rw [foldl_add_eq_sum (fun k => (a k - b k) * (a k - b k)) (List.finRange DESC_DIM) 0,
    zero_add, ← Fin.sum_univ_def]

theorem d2_self (a : Descr) : d2 a a = 0 := by
  rw [d2_eq_sum]
  simp

theorem d2_one_zero : d2 oneDesc zeroDesc = 1 := by
  rw [d2_eq_sum]
  have h1 : ∀ k : Fin DESC_DIM,
      (oneDesc k - zeroDesc k) * (oneDesc k - zeroDesc k)
        = if k = (0 : Fin DESC_DIM) then 1 else 0 := by
    intro k
    unfold oneDesc zeroDesc
    by_cases h : (k : ℕ) = 0
    · have hk : k = (0 : Fin DESC_DIM) := by
        apply Fin.ext
        simpa using h
      simp [h, hk]
    · have hk : k ≠ (0 : Fin DESC_DIM) := by
        intro hc
        exact h (by rw [hc]; rfl)
      simp [h, hk]
  rw [Finset.sum_congr rfl (fun k _ => h1 k)]
  simp

/-- C4 (amended). A pair (i, j) is emitted by the plain GPU matcher iff
j is the index of the FIRST candidate of B attaining the minimum
squared L2 distance from query i, that minimum beats the 1e30 sentinel,
and the ratio test passes against the second-smallest squared distance
(with multiplicity, sentinel-padded). With tied minima only the first
attaining index is emitted, not every index achieving the minimum. -/
theorem C4_plain_matcher_emit_iff (A B : List Descr) (rho : ℚ) (i : ℕ) (j : ℤ) :
    (i, j) ∈ matchJS A B rho ↔
      ∃ a, A.get? i = some a
        ∧ minDist a B < SENTINEL
        ∧ j = firstArgmin (matcherCandidates a B) SENTINEL (-1)
        ∧ minDist a B < rho * rho * secondDist a B := by
  unfold matchJS
  rw [List.mem_filterMap]
  constructor
  · rintro ⟨⟨k, a⟩, hp, hf⟩
    have hka : A.get? k = some a := by
      have := List.mem_enum_iff_get?.mp hp
      simpa using this
    by_cases hcond : 0 ≤ (matchResult a B).bestIdx
        ∧ (matchResult a B).bestDistSq < rho * rho * (matchResult a B).secondDistSq
    · rw [if_pos hcond] at hf
      have hpair := Option.some.inj hf
      have hi : k = i := congrArg Prod.fst hpair
      have hj : (matchResult a B).bestIdx = j := congrArg Prod.snd hpair
      have hmin : minDist a B < SENTINEL := (matchResult_idx_nonneg_iff a B).mp hcond.1
      refine ⟨a, by rw [← hi]; exact hka, hmin, ?_, ?_⟩
      · rw [← hj, matchResult_idx,
          if_pos (((distMin_eq_minDist a B).symm ▸ hmin))]
      · have h2 := hcond.2
        rw [matchResult_best, matchResult_second] at h2
        exact h2
    · rw [if_neg hcond] at hf
      exact absurd hf (by simp)
  · rintro ⟨a, hka, hmin, hj, hratio⟩
    refine ⟨(i, a), ?_, ?_⟩
    · exact List.mem_enum_iff_get?.mpr (by simpa using hka)
    · have h1 : 0 ≤ (matchResult a B).bestIdx := (matchResult_idx_nonneg_iff a B).mpr hmin
      have h2 : (matchResult a B).bestDistSq < rho * rho * (matchResult a B).secondDistSq := by
        rw [matchResult_best, matchResult_second]
        exact hratio
      rw [if_pos ⟨h1, h2⟩]
      have hidx : (matchResult a B).bestIdx = j := by
        rw [matchResult_idx, if_pos (((distMin_eq_minDist a B).symm ▸ hmin))]
        exact hj.symm
      rw [hidx]

theorem candidates_one_two_zeros :
    matcherCandidates oneDesc [zeroDesc, zeroDesc] = [(0, 1), (1, 1)] := by
  simp [matcherCandidates, candidatesFrom, d2_one_zero]

theorem matchResult_one_two_zeros :
    matchResult oneDesc [zeroDesc, zeroDesc] = ⟨0, 1, 1⟩ := by
  rw [matchResult, candidates_one_two_zeros]
  norm_num [matchLoop, matchStep, matchInit, SENTINEL]

theorem minDist_one_two_zeros : minDist oneDesc [zeroDesc, zeroDesc] = 1 := by
  unfold minDist sortedPaddedDists
  norm_num [d2_one_zero, List.insertionSort, List.orderedInsert, SENTINEL]

theorem secondDist_one_two_zeros : secondDist oneDesc [zeroDesc, zeroDesc] = 1 := by
  unfold secondDist sortedPaddedDists
  norm_num [d2_one_zero, List.insertionSort, List.orderedInsert, SENTINEL]

theorem matchJS_one_two_zeros :
    matchJS [oneDesc] [zeroDesc, zeroDesc] 2 = [((0 : ℕ), (0 : ℤ))] := by
  unfold matchJS
  simp only [List.enum, List.enumFrom, List.filterMap_cons, List.filterMap_nil,
    matchResult_one_two_zeros]
  norm_num

/-- C4 counterexample. With B holding two identical descriptors at
squared distance 1 from the query and ratio 2: index 1 achieves the
minimum distance over B, the best index is nonnegative, and the ratio
test passes (1 < 4 * 1), yet the pair (0, 1) is not emitted -- the
matcher emits only (0, 0), the FIRST index attaining the minimum. This
refutes the claimed iff at the concrete input A = [oneDesc],
B = [zeroDesc, zeroDesc], rho = 2, i = 0, j = 1. -/
theorem C4_counterexample :
    achievesMinDist oneDesc [zeroDesc, zeroDesc] 1
    ∧ 0 ≤ (matchResult oneDesc [zeroDesc, zeroDesc]).bestIdx
    ∧ minDist oneDesc [zeroDesc, zeroDesc]
        < 2 * 2 * secondDist oneDesc [zeroDesc, zeroDesc]
    ∧ ((0 : ℕ), (1 : ℤ)) ∉ matchJS [oneDesc] [zeroDesc, zeroDesc] 2 := by
  refine ⟨?_, ?_, ?_, ?_⟩
  · exact ⟨zeroDesc, rfl, by
      intro b hb
      rcases List.mem_cons.mp hb with h | h
      · rw [h]
      · rw [List.mem_singleton.mp h]⟩
  · rw [matchResult_one_two_zeros]
  · rw [minDist_one_two_zeros, secondDist_one_two_zeros]
    norm_num
  · rw [matchJS_one_two_zeros]
    simp

/-! ### CPU matcher (MatcherCPU.matchStatic)
JS Infinity sentinels are modelled as the top element of WithTop. -/

/-- Running state of the CPU matcher loop: bestIdx starts at -1, best
and second-best squared distances start at Infinity. -/
structure MatchStateCPU where
  bestIdx : ℤ
  best : WithTop ℚ
  second : WithTop ℚ
deriving DecidableEq

/-- Loop body of matchStatic lines 45-51. -/
def matchStepCPU (st : MatchStateCPU) (c : ℤ × ℚ) : MatchStateCPU :=
  if (c.2 : WithTop ℚ) < st.best then ⟨c.1, (c.2 : WithTop ℚ), st.best⟩
  else if (c.2 : WithTop ℚ) < st.second then ⟨st.bestIdx, st.best, (c.2 : WithTop ℚ)⟩
  else st

/-- Per-query result of the CPU matcher. -/
def matchResultCPU (a : Descr) (B : List Descr) : MatchStateCPU :=
  (matcherCandidates a B).foldl matchStepCPU ⟨-1, ⊤, ⊤⟩

/-- MatcherCPU.matchStatic: per query fold, then keep (i, bestIdx) iff
bestDist < ratio^2 * secondBestDist. The CPU source has no
bestIdx >= 0 check (line 56). -/
def matchCPU (A B : List Descr) (rho : ℚ) : List (ℕ × ℤ) :=
  A.enum.filterMap (fun p =>
    if (matchResultCPU p.2 B).best
        < ((rho * rho : ℚ) : WithTop ℚ) * (matchResultCPU p.2 B).second
    then some (p.1, (matchResultCPU p.2 B).bestIdx) else none)

/-- C10 (amended). For a sole candidate b: the GPU matcher leaves the
second distance at the 1e30 sentinel and emits the match iff the
squared distance beats BOTH the sentinel and rho^2 times the sentinel
-- so a sufficiently large distance or small rho CAN reject a sole
candidate on the GPU path; the CPU matcher, whose sentinel is the true
Infinity, emits the sole candidate unconditionally for any rho > 0. -/
theorem C10_sole_candidate (a b : Descr) (rho : ℚ) :
    (matchResult a [b]).secondDistSq = SENTINEL
    ∧ (((0 : ℕ), (0 : ℤ)) ∈ matchJS [a] [b] rho
        ↔ d2 a b < SENTINEL ∧ d2 a b < rho * rho * SENTINEL)
    ∧ (0 < rho → matchCPU [a] [b] rho = [((0 : ℕ), (0 : ℤ))]) := by
  have hcand : matcherCandidates a [b] = [((0 : ℤ), d2 a b)] := by
    simp [matcherCandidates, candidatesFrom]
  have hres : matchResult a [b]
      = if d2 a b < SENTINEL then ⟨0, d2 a b, SENTINEL⟩ else matchInit := by
    rw [matchResult, hcand]
    by_cases hd : d2 a b < SENTINEL
    · simp [matchLoop, matchStep, matchInit, hd]
    · simp [matchLoop, matchStep, matchInit, hd]
  refine ⟨?_, ?_, ?_⟩
  · rw [hres]
    by_cases hd : d2 a b < SENTINEL <;> simp [hd, matchInit]
  · unfold matchJS
    simp only [List.enum, List.enumFrom, List.filterMap_cons, List.filterMap_nil, hres]
    by_cases hd : d2 a b < SENTINEL
    · simp only [if_pos hd]
      by_cases hr : d2 a b < rho * rho * SENTINEL
      · simp [hd, hr]
      · simp [hd, hr]
    · simp only [if_neg hd]
      simp [matchInit, hd]
  · intro hrho
    have hcpu : matchResultCPU a [b] = ⟨0, (d2 a b : WithTop ℚ), ⊤⟩ := by
      simp [matchResultCPU, hcand, matchStepCPU, WithTop.coe_lt_top]
    have hne : ((rho * rho : ℚ) : WithTop ℚ) ≠ 0 := by
      rw [ne_eq, WithTop.coe_eq_zero]
      exact ne_of_gt (mul_pos hrho hrho)
    unfold matchCPU
    simp only [List.enum, List.enumFrom, List.filterMap_cons, List.filterMap_nil, hcpu]
    rw [WithTop.mul_top hne]
    simp [WithTop.coe_lt_top]

theorem matchResult_one_zero : matchResult oneDesc [zeroDesc] = ⟨0, 1, SENTINEL⟩ := by
  have hcand : matcherCandidates oneDesc [zeroDesc] = [((0 : ℤ), 1)] := by
    simp [matcherCandidates, candidatesFrom, d2_one_zero]
  rw [matchResult, hcand]
  norm_num [matchLoop, matchStep, matchInit, SENTINEL]

/-- C10 counterexample. B holds exactly one candidate at finite squared
distance 1 from the query, and the ratio is the positive value 1e-16.
Then rho^2 * 1e30 = 1/100 and the GPU ratio test 1 < 1/100 fails: the
sole candidate IS rejected, refuting the claim that the GPU matcher's
ratio test can never reject a sole candidate for any rho > 0. The
factor-100 margin makes the rejection robust in real float arithmetic:
with the float32 sentinel 1.0000000150474662e30 the readback compares
1.0 < 1e-32 * 1.0000000150474662e30 = 1.0000000150474662e-2, still
false. -/
theorem C10_counterexample :
    d2 oneDesc zeroDesc = 1
    ∧ (0 : ℚ) < 1 / 10 ^ 16
    ∧ matchJS [oneDesc] [zeroDesc] (1 / 10 ^ 16) = [] := by
  refine ⟨d2_one_zero, by norm_num, ?_⟩
  unfold matchJS
  simp only [List.enum, List.enumFrom, List.filterMap_cons, List.filterMap_nil,
    matchResult_one_zero]
  norm_num [SENTINEL]

/-- Witness for C10_sole_candidate at concrete inputs. -/
theorem C10_sole_candidate_witness :
    (matchResult oneDesc [zeroDesc]).secondDistSq = SENTINEL
    ∧ ((0 : ℚ) < 3 / 4 ∧ matchCPU [oneDesc] [zeroDesc] (3 / 4) = [((0 : ℕ), (0 : ℤ))]) :=
  ⟨(C10_sole_candidate oneDesc zeroDesc (3 / 4)).1,
    by norm_num,
    (C10_sole_candidate oneDesc zeroDesc (3 / 4)).2.2 (by norm_num)⟩

/-! ### Guided matcher
Sources: src/sift/src/shaders/matching/matcher_guided.wgsl and
MatcherWebGPU.matchGuided in src/sift/src/matcher-webgpu.js. -/

/-- Epipolar line l = F * (x, y, 1) for a query point p. F is row-major
as passed to matchGuided; the JS packs F[row][col] into column vectors
col0..col2 and the shader recombines them (line 33), so component k of
the line is F[k][0]*x + F[k][1]*y + F[k][2]. -/
def epipolarLine (F : Fin 3 → Fin 3 → ℚ) (p : ℚ × ℚ) : ℚ × ℚ × ℚ :=
  (F 0 0 * p.1 + F 0 1 * p.2 + F 0 2,
   F 1 0 * p.1 + F 1 1 * p.2 + F 1 2,
   F 2 0 * p.1 + F 2 1 * p.2 + F 2 2)

/-- Candidate loop of matcher_guided.wgsl lines 42-63 from index j: a
candidate is skipped iff its point-to-line distance
|l0 x + l1 y + l2| / (lineNorm + 1e-6) exceeds the threshold (line 48);
surviving candidates enter the best/second search with their original
index. lineNorm = sqrt(l0^2 + l1^2) is passed in explicitly since the
rationals lack square roots. -/
def guidedCandidatesFrom (a : Descr) (l : ℚ × ℚ × ℚ) (norm thr : ℚ) :
    ℕ → List (Descr × (ℚ × ℚ)) → List (ℤ × ℚ)
  | _, [] => []
  | j, (bj, q) :: rest =>
    if |l.1 * q.1 + l.2.1 * q.2 + l.2.2| / (norm + 1 / 10 ^ 6) > thr
    then guidedCandidatesFrom a l norm thr (j + 1) rest
    else ((j : ℤ), d2 a bj) :: guidedCandidatesFrom a l norm thr (j + 1) rest

/-- Per-query state written by one thread of matcher_guided.wgsl. -/
def matchGuidedResult (a : Descr) (pA : ℚ × ℚ) (B : List Descr)
    (kpB : List (ℚ × ℚ)) (F : Fin 3 → Fin 3 → ℚ) (thr norm : ℚ) : MatchState :=
  matchLoop (guidedCandidatesFrom a (epipolarLine F pA) norm thr 0 (B.zip kpB))

/-- Readback filter of matchGuided (matcher-webgpu.js lines 263-267):
a pair (i, bestIdx) is pushed iff bestIdx >= 0. No ratio test appears
in this function (and it takes no ratio parameter). -/
def matchGuidedJS (A : List Descr) (kpA : List (ℚ × ℚ)) (B : List Descr)
    (kpB : List (ℚ × ℚ)) (F : Fin 3 → Fin 3 → ℚ) (thr : ℚ)
    (normOf : ℕ → ℚ) : List (ℕ × ℤ) :=
  A.enum.filterMap (fun p =>
    if 0 ≤ (matchGuidedResult p.2 (kpA.getD p.1 (0, 0)) B kpB F thr (normOf p.1)).bestIdx
    then some (p.1, (matchGuidedResult p.2 (kpA.getD p.1 (0, 0)) B kpB F thr (normOf p.1)).bestIdx)
    else none)

/-- Fundamental matrix whose third column is (3, 4, 0) and which is
zero elsewhere: the epipolar line of the origin is (3, 4, 0), with
exact norm 5. -/
def exampleF : Fin 3 → Fin 3 → ℚ := fun i j =>
  if j = 2 then (if i = 0 then 3 else if i = 1 then 4 else 0) else 0

theorem exampleF_line : epipolarLine exampleF ((0 : ℚ), (0 : ℚ)) = (3, 4, 0) := by
  unfold epipolarLine
  rw [show exampleF 0 0 = 0 from rfl, show exampleF 0 1 = 0 from rfl,
    show exampleF 0 2 = 3 from rfl, show exampleF 1 0 = 0 from rfl,
    show exampleF 1 1 = 0 from rfl, show exampleF 1 2 = 4 from rfl,
    show exampleF 2 0 = 0 from rfl, show exampleF 2 1 = 0 from rfl,
    show exampleF 2 2 = 0 from rfl]
  norm_num

theorem guidedResult_example :
    matchGuidedResult oneDesc ((0 : ℚ), (0 : ℚ)) [zeroDesc, zeroDesc]
      [((0 : ℚ), (0 : ℚ)), ((0 : ℚ), (0 : ℚ))] exampleF 1 5 = ⟨0, 1, 1⟩ := by
  unfold matchGuidedResult
  rw [exampleF_line]
  have hcand : guidedCandidatesFrom oneDesc ((3 : ℚ), (4 : ℚ), (0 : ℚ)) 5 1 0
      ([zeroDesc, zeroDesc].zip [((0 : ℚ), (0 : ℚ)), ((0 : ℚ), (0 : ℚ))])
      = [((0 : ℤ), 1), ((1 : ℤ), 1)] := by
    norm_num [guidedCandidatesFrom, List.zip, d2_one_zero]
  rw [hcand]
  norm_num [matchLoop, matchStep, matchInit, SENTINEL]

/-- C5: the JS guided matcher applies no ratio test. With two identical
candidates both surviving the epipolar filter (their keypoints lie on
the line (3,4,0) through the query's epipolar geometry, distance 0 with
norm 5 = sqrt(3^2+4^2)), both squared descriptor distances are 1, so
best equals second and the claimed ratio test best < rho^2 * second
fails for the default rho = 3/4 -- yet matchGuided still emits the
pair (0, 0), because its readback filter checks only bestIdx >= 0. -/
theorem C5_guided_no_ratio_test :
    IsSqrtOf 5 (3 * 3 + 4 * 4)
    ∧ matchGuidedJS [oneDesc] [((0 : ℚ), (0 : ℚ))] [zeroDesc, zeroDesc]
        [((0 : ℚ), (0 : ℚ)), ((0 : ℚ), (0 : ℚ))] exampleF 1 (fun _ => 5)
        = [((0 : ℕ), (0 : ℤ))]
    ∧ ¬ ((matchGuidedResult oneDesc ((0 : ℚ), (0 : ℚ)) [zeroDesc, zeroDesc]
            [((0 : ℚ), (0 : ℚ)), ((0 : ℚ), (0 : ℚ))] exampleF 1 5).bestDistSq
          < (3 / 4) * (3 / 4)
            * (matchGuidedResult oneDesc ((0 : ℚ), (0 : ℚ)) [zeroDesc, zeroDesc]
                [((0 : ℚ), (0 : ℚ)), ((0 : ℚ), (0 : ℚ))] exampleF 1 5).secondDistSq) := by
  refine ⟨⟨by norm_num, by norm_num⟩, ?_, ?_⟩
  · unfold matchGuidedJS
    simp only [List.enum, List.enumFrom, List.filterMap_cons, List.filterMap_nil]
    rw [show ([((0 : ℚ), (0 : ℚ))].getD 0 ((0 : ℚ), (0 : ℚ))) = ((0 : ℚ), (0 : ℚ)) from rfl,
      guidedResult_example]
    norm_num
  · rw [guidedResult_example]
    norm_num

/-! ## DoG pyramid (C1)
Sources: src/sift/src/shaders/detection/packed/dog.wgsl and the runDoG
call sites in sift-webgpu-packed.js buildPyramids (and identically in
sift-webgpu-default.js and the C++ drivers); CPU reference
computeDoGPyramid in the SIFTCPU class. -/

/-- dog.wgsl line 20: per-texel vector subtract, output = texA - texB. -/
def dogShader (texA texB : ℤ × ℤ → ℚ) : ℤ × ℤ → ℚ := fun p => texA p - texB p

/-- runDoG call site: buildPyramids invokes
runDoG(enc, gaussOctave[s], gaussOctave[s+1], dogOctave[s], w, h), so
the stored DoG layer s of octave o is dogShader applied to
texA = G[o][s] and texB = G[o][s+1]. -/
def runDoG (G : ℕ → ℕ → (ℤ × ℤ → ℚ)) (o s : ℕ) : ℤ × ℤ → ℚ :=
  dogShader (G o s) (G o (s + 1))

/-- computeDoGPyramid of the CPU reference: dog[i] = g1[i] - g0[i] with
g1 = gaussian[s+1] and g0 = gaussian[s]. -/
def computeDoGPyramidCPU (G : ℕ → ℕ → (ℤ × ℤ → ℚ)) (o s : ℕ) : ℤ × ℤ → ℚ :=
  fun p => G o (s + 1) p - G o s p

/-- Gaussian pyramid witness for the C1 counterexample: scale 1 is the
constant 1, all other scales constant 0. -/
def exampleG : ℕ → ℕ → ℤ × ℤ → ℚ := fun _ s _ => if s = 1 then 1 else 0

/-- C1 counterexample: on a pyramid whose scale-1 layer is 1 and
scale-0 layer is 0, the GPU-stored D[0][0] is 0 - 1 = -1 while
G[0][1] - G[0][0] = 1; the deviation 2 is far beyond the claimed 1e-4
tolerance. -/
theorem C1_counterexample :
    runDoG exampleG 0 0 (0, 0) = -1
    ∧ exampleG 0 1 (0, 0) - exampleG 0 0 (0, 0) = 1
    ∧ ¬ (|runDoG exampleG 0 0 (0, 0) - (exampleG 0 1 (0, 0) - exampleG 0 0 (0, 0))|
          ≤ 1 / 10 ^ 4) := by
  refine ⟨?_, ?_, ?_⟩ <;> norm_num [runDoG, dogShader, exampleG]

/-- C1 (amended). The GPU drivers store D[o][s] = G[o][s] - G[o][s+1],
the NEGATIVE of the claimed difference, while the CPU reference stores
D[o][s] = G[o][s+1] - G[o][s], which satisfies the claimed identity
exactly (deviation 0, within any tolerance). -/
theorem C1_dog_stored (G : ℕ → ℕ → (ℤ × ℤ → ℚ)) (o s : ℕ) (p : ℤ × ℤ) :
    runDoG G o s p = -(G o (s + 1) p - G o s p)
    ∧ computeDoGPyramidCPU G o s p = G o (s + 1) p - G o s p
    ∧ |computeDoGPyramidCPU G o s p - (G o (s + 1) p - G o s p)| ≤ 1 / 10 ^ 4 := by
  refine ⟨?_, rfl, ?_⟩
  · show G o s p - G o (s + 1) p = _
    ring
  · show |G o (s + 1) p - G o s p - (G o (s + 1) p - G o s p)| ≤ _
    norm_num

/-! ## Keypoint readback and the scale-restore factor (C2)
Sources: SIFTWebGPUDefault.readbackKeypoints and
SIFTWebGPUPacked.retrieveKeypoints; keypoint records are written by the
extrema shaders with fields (x, y, octave, scale, sigma, orientation). -/

/-- Keypoint record as read back from the GPU buffer. -/
structure Keypoint where
  x : ℚ
  y : ℚ
  octave : ℚ
  scale : ℚ
  sigma : ℚ
  orientation : ℚ
deriving DecidableEq

/-- Per-keypoint readback transform, identical in
readbackKeypoints (default driver) and retrieveKeypoints (packed
driver): x, y and the SCALE-INDEX field are multiplied by the
scale-restore factor; sigma and orientation are returned unchanged. -/
def retrieveKeypoint (factor : ℚ) (kp : Keypoint) : Keypoint :=
  { x := kp.x * factor, y := kp.y * factor, octave := kp.octave,
    scale := kp.scale * factor, sigma := kp.sigma,
    orientation := kp.orientation }

/-- C2: the code applies the restore factor to the scale-index field
and NOT to sigma. Failing input: restore factor 2 (image downscaled by
1/2), keypoint stored by the extrema shader at octave 0, scale 3 with
sigma = sigma_base * 2^(scale/S) * 2^octave = 1.6 * 2^(3/3) * 2^0
= 3.2. The returned keypoint has sigma 3.2 (unscaled) and scale 6,
while the claim requires sigma = 3.2 * 2 = 6.4 within 1e-5 relative:
the relative error is 0.5. -/
theorem C2_sigma_not_restored :
    ((16 / 5 : ℝ) = 1.6 * 2 ^ ((3 : ℝ) / 3) * 2 ^ ((0 : ℝ)))
    ∧ (retrieveKeypoint 2 ⟨32, 16, 0, 3, 16 / 5, 0⟩).sigma = 16 / 5
    ∧ (retrieveKeypoint 2 ⟨32, 16, 0, 3, 16 / 5, 0⟩).scale = 6
    ∧ (retrieveKeypoint 2 ⟨32, 16, 0, 3, 16 / 5, 0⟩).x = 64
    ∧ ¬ (|((retrieveKeypoint 2 ⟨32, 16, 0, 3, 16 / 5, 0⟩).sigma : ℝ)
            - 1.6 * 2 ^ ((3 : ℝ) / 3) * 2 ^ ((0 : ℝ)) * 2|
          ≤ 1 / 10 ^ 5 * (1.6 * 2 ^ ((3 : ℝ) / 3) * 2 ^ ((0 : ℝ)) * 2)) := by
  have h33 : ((3 : ℝ) / 3) = 1 := by norm_num
  have h2 : (2 : ℝ) ^ ((3 : ℝ) / 3) = 2 := by rw [h33, Real.rpow_one]
  have h0 : (2 : ℝ) ^ ((0 : ℝ)) = 1 := Real.rpow_zero 2
  refine ⟨?_, ?_, ?_, ?_, ?_⟩
  · rw [h2, h0]
    norm_num
  · norm_num [retrieveKeypoint]
  · norm_num [retrieveKeypoint]
  · norm_num [retrieveKeypoint]
  · rw [h2, h0]
    have hsig : (retrieveKeypoint 2 ⟨32, 16, 0, 3, 16 / 5, 0⟩).sigma = 16 / 5 := rfl
    rw [hsig]
    have habs : |((16 / 5 : ℚ) : ℝ) - 1.6 * 2 * 1 * 2| = 16 / 5 := by
      rw [abs_of_neg] <;> push_cast <;> norm_num
    rw [habs]
    norm_num

/-! ## Extremum detection and the keypoint append buffer (C3)
Sources: checkKeypoint of the packed extrema shader and the aggregation
in the default extrema.wgsl (lines 84-109). Both increment the
append-buffer count atomically without any capacity bound. -/

/-- Uniform parameters of the extrema shaders that the tests read:
threshold (the driver passes contrastThreshold / scalesPerOctave) and
edgeThreshold. -/
structure ExtremaParams where
  threshold : ℚ
  edgeThreshold : ℚ

/-- The 26 neighbor offsets (vz, vy, vx) of the 3x3x3 window around the
candidate, in the shader's loop order (vz outer, vy middle, vx inner),
with the center (0,0,0) skipped. -/
def neighborOffsets : List (ℤ × ℤ × ℤ) :=
  [(-1, -1, -1), (-1, -1, 0), (-1, -1, 1),
   (-1, 0, -1), (-1, 0, 0), (-1, 0, 1),
   (-1, 1, -1), (-1, 1, 0), (-1, 1, 1),
   (0, -1, -1), (0, -1, 0), (0, -1, 1),
   (0, 0, -1), (0, 0, 1),
   (0, 1, -1), (0, 1, 0), (0, 1, 1),
   (1, -1, -1), (1, -1, 0), (1, -1, 1),
   (1, 0, -1), (1, 0, 0), (1, 0, 1),
   (1, 1, -1), (1, 1, 0), (1, 1, 1)]

/-- Value of the neighbor at offset (vz, vy, vx) of logical pixel
(x, y): layer selected by vz, position (x+vx, y+vy). -/
def neighborVal (prev curr next : ℤ × ℤ → ℚ) (x y : ℤ) (v : ℤ × ℤ × ℤ) : ℚ :=
  if v.1 = -1 then prev (x + v.2.2, y + v.2.1)
  else if v.1 = 0 then curr (x + v.2.2, y + v.2.1)
  else next (x + v.2.2, y + v.2.1)

/-- checkKeypoint of the packed extrema shader (same tests as the
default variant): contrast gate abs(val) >= threshold, strict
26-neighbor maximum or minimum, and the principal-curvature edge test
det > 0 and tr^2 * r < (r+1)^2 * det with 2-D finite differences. -/
def checkKeypointPasses (P : ExtremaParams) (prev curr next : ℤ × ℤ → ℚ)
    (x y : ℤ) : Prop :=
  ¬ (|curr (x, y)| < P.threshold)
  ∧ ((∀ v ∈ neighborOffsets, neighborVal prev curr next x y v < curr (x, y))
      ∨ (∀ v ∈ neighborOffsets, curr (x, y) < neighborVal prev curr next x y v))
  ∧ (0 < (curr (x + 1, y) + curr (x - 1, y) - 2 * curr (x, y))
          * (curr (x, y + 1) + curr (x, y - 1) - 2 * curr (x, y))
        - ((curr (x + 1, y + 1) - curr (x + 1, y - 1)
            - curr (x - 1, y + 1) + curr (x - 1, y - 1)) * (1 / 4))
          * ((curr (x + 1, y + 1) - curr (x + 1, y - 1)
            - curr (x - 1, y + 1) + curr (x - 1, y - 1)) * (1 / 4))
      ∧ (curr (x + 1, y) + curr (x - 1, y) - 2 * curr (x, y)
            + (curr (x, y + 1) + curr (x, y - 1) - 2 * curr (x, y)))
          * (curr (x + 1, y) + curr (x - 1, y) - 2 * curr (x, y)
            + (curr (x, y + 1) + curr (x, y - 1) - 2 * curr (x, y)))
          * P.edgeThreshold
        < (P.edgeThreshold + 1) * (P.edgeThreshold + 1)
          * ((curr (x + 1, y) + curr (x - 1, y) - 2 * curr (x, y))
              * (curr (x, y + 1) + curr (x, y - 1) - 2 * curr (x, y))
            - ((curr (x + 1, y + 1) - curr (x + 1, y - 1)
                - curr (x - 1, y + 1) + curr (x - 1, y - 1)) * (1 / 4))
              * ((curr (x + 1, y + 1) - curr (x + 1, y - 1)
                - curr (x - 1, y + 1) + curr (x - 1, y - 1)) * (1 / 4))))

instance (P : ExtremaParams) (prev curr next : ℤ × ℤ → ℚ) (x y : ℤ) :
    Decidable (checkKeypointPasses P prev curr next x y) := by
  unfold checkKeypointPasses
  infer_instance

/-- The append of a passing candidate (checkKeypoint lines 101-111 of
the packed extrema shader): atomicAdd(&keypoints.count, 1) with no
capacity check, folded over the candidate pixels a dispatch inspects. -/
def appendCount (P : ExtremaParams) (prev curr next : ℤ × ℤ → ℚ)
    (pixels : List (ℤ × ℤ)) (count0 : ℕ) : ℕ :=
  pixels.foldl (fun cnt q =>
    if checkKeypointPasses P prev curr next q.1 q.2 then cnt + 1 else cnt) count0

/-- C3 (amended): the extrema append increments the count once per
passing candidate, unconditionally -- the final count equals the
initial count plus the number of candidates passing the extremum tests.
No comparison against max_keypoints exists anywhere on the append path
(and no warning is raised), so the stored count exceeds the capacity
whenever more candidates pass than max_keypoints. -/
theorem C3_append_count (P : ExtremaParams) (prev curr next : ℤ × ℤ → ℚ)
    (pixels : List (ℤ × ℤ)) : ∀ (count0 : ℕ),
    appendCount P prev curr next pixels count0
      = count0 + pixels.countP
          (fun q => decide (checkKeypointPasses P prev curr next q.1 q.2)) := by
  induction pixels with
  | nil => intro c; simp [appendCount]
  | cons q rest ih =>
    intro c
    by_cases h : checkKeypointPasses P prev curr next q.1 q.2
    · have h1 : appendCount P prev curr next (q :: rest) c
          = appendCount P prev curr next rest (c + 1) := by
        simp [appendCount, h]
      rw [h1, ih (c + 1), List.countP_cons]
      simp [h]
      ring
    · have h1 : appendCount P prev curr next (q :: rest) c
          = appendCount P prev curr next rest c := by
        simp [appendCount, h]
      rw [h1, ih c, List.countP_cons]
      simp [h]

/-- Extrema parameters of the C3 counterexample: contrast threshold
0.03 / 3 = 0.01 (defaults) and edge threshold 10. -/
def exampleParams : ExtremaParams := ⟨1 / 100, 10⟩

/-- DoG middle layer for the C3 counterexample: two isolated unit peaks
at (2,2) and (6,2) on a zero background. -/
def exampleDoG : ℤ × ℤ → ℚ := fun p => if p = (2, 2) ∨ p = (6, 2) then 1 else 0

/-- All-zero texture (prev and next DoG layers). -/
def zeroTex : ℤ × ℤ → ℚ := fun _ => 0

theorem examplePeakPasses (x y : ℤ) (hx : exampleDoG (x, y) = 1)
    (hn : ∀ v ∈ neighborOffsets,
      neighborVal zeroTex exampleDoG zeroTex x y v = 0)
    (hd : exampleDoG (x + 1, y) = 0 ∧ exampleDoG (x - 1, y) = 0
      ∧ exampleDoG (x, y + 1) = 0 ∧ exampleDoG (x, y - 1) = 0
      ∧ exampleDoG (x + 1, y + 1) = 0 ∧ exampleDoG (x + 1, y - 1) = 0
      ∧ exampleDoG (x - 1, y + 1) = 0 ∧ exampleDoG (x - 1, y - 1) = 0) :
    checkKeypointPasses exampleParams zeroTex exampleDoG zeroTex x y := by
  obtain ⟨h1, h2, h3, h4, h5, h6, h7, h8⟩ := hd
  refine ⟨?_, Or.inl ?_, ?_, ?_⟩
  · rw [hx]
    norm_num [exampleParams]
  · intro v hv
    rw [hn v hv, hx]
    norm_num
  · rw [hx, h1, h2, h3, h4, h5, h6, h7, h8]
    norm_num
  · rw [hx, h1, h2, h3, h4, h5, h6, h7, h8]
    norm_num [exampleParams]

/-- C3 counterexample: with max_keypoints = 1 and a DoG layer holding
two isolated unit peaks, both candidates pass the extremum tests and
the stored count reaches 2 > 1 -- there is no truncation at the
capacity, refuting "the buffer count never exceeds capacity". -/
theorem C3_counterexample :
    appendCount exampleParams zeroTex exampleDoG zeroTex [(2, 2), (6, 2)] 0 = 2
    ∧ 1 < appendCount exampleParams zeroTex exampleDoG zeroTex [(2, 2), (6, 2)] 0 := by
  have hp1 : checkKeypointPasses exampleParams zeroTex exampleDoG zeroTex 2 2 := by
    refine examplePeakPasses 2 2 (by norm_num [exampleDoG]) ?_ ?_
    · intro v hv
      fin_cases hv <;> norm_num [neighborVal, exampleDoG, zeroTex, Prod.ext_iff]
    · refine ⟨?_, ?_, ?_, ?_, ?_, ?_, ?_, ?_⟩ <;> norm_num [exampleDoG, Prod.ext_iff]
  have hp2 : checkKeypointPasses exampleParams zeroTex exampleDoG zeroTex 6 2 := by
    refine examplePeakPasses 6 2 (by norm_num [exampleDoG]) ?_ ?_
    · intro v hv
      fin_cases hv <;> norm_num [neighborVal, exampleDoG, zeroTex, Prod.ext_iff]
    · refine ⟨?_, ?_, ?_, ?_, ?_, ?_, ?_, ?_⟩ <;> norm_num [exampleDoG, Prod.ext_iff]
  constructor
  · show appendCount _ _ _ _ _ _ = 2
    simp [appendCount, hp1, hp2]
  · show 1 < appendCount _ _ _ _ _ _
    simp [appendCount, hp1, hp2]

/-! ## Orientation assignment (C6)
Sources: computeOrientations of the CPU reference (histogram smoothing,
peak scan, parabolic interpolation, write-back in radians) and the
orientation shader, whose post-accumulation steps are identical except
for the initialization of the maximum scan. The raw 36-bin gradient
histogram is the input of this model. -/

/-- ORI_BINS: 36 orientation histogram bins. -/
abbrev ORI_BINS : ℕ := 36

/-- Circular [0.25, 0.5, 0.25] histogram smoothing (identical in the
CPU reference and the shader). -/
def smoothHist (hist : ℕ → ℚ) (i : ℕ) : ℚ :=
  0.25 * hist ((i + ORI_BINS - 1) % ORI_BINS) + 0.5 * hist i
    + 0.25 * hist ((i + 1) % ORI_BINS)

/-- Peak scan of the CPU reference: maxVal starts at 0 and maxBin at
-1, updated on strict improvement. -/
def maxBinScanCPU (sh : ℕ → ℚ) : ℚ × ℤ :=
  (List.range ORI_BINS).foldl
    (fun p i => if sh i > p.1 then (sh i, (i : ℤ)) else p) (0, -1)

/-- Peak scan of the orientation shader: maxVal starts at -1.0 and
maxBin at 0, with the same update. -/
def maxBinScanGPU (sh : ℕ → ℚ) : ℚ × ℤ :=
  (List.range ORI_BINS).foldl
    (fun p i => if sh i > p.1 then (sh i, (i : ℤ)) else p) (-1, 0)

/-- One-step parabolic refinement: given the scan result (maxVal,
maxBin), peak = maxBin + 0.5 * (left - right) / (left - 2*maxVal +
right) with circular neighbor lookups. The written orientation is
peak * 2*pi / 36 -- no wrapping is applied afterwards. -/
def peakFromScan (sh : ℕ → ℚ) (p : ℚ × ℤ) : ℚ :=
  (p.2 : ℚ) + 0.5 * (sh (((p.2 + (ORI_BINS : ℤ) - 1) % (ORI_BINS : ℤ)).toNat)
      - sh (((p.2 + 1) % (ORI_BINS : ℤ)).toNat))
    / (sh (((p.2 + (ORI_BINS : ℤ) - 1) % (ORI_BINS : ℤ)).toNat) - 2 * p.1
      + sh (((p.2 + 1) % (ORI_BINS : ℤ)).toNat))

/-- Refined peak of the CPU reference for a raw histogram. -/
def peakCPU (hist : ℕ → ℚ) : ℚ :=
  peakFromScan (smoothHist hist) (maxBinScanCPU (smoothHist hist))

/-- Refined peak of the orientation shader for a raw histogram. -/
def peakGPU (hist : ℕ → ℚ) : ℚ :=
  peakFromScan (smoothHist hist) (maxBinScanGPU (smoothHist hist))

/-- Raw orientation histogram used against C6: bin 0 holds 10, bin 35
holds 8, all other bins 0 (gradients concentrated just above and just
below angle zero). -/
def exampleHist : ℕ → ℚ := fun i => if i = 0 then 10 else if i = 35 then 8 else 0

theorem smooth_example_0 : smoothHist exampleHist 0 = 7 := by
  norm_num [smoothHist, exampleHist]

theorem smooth_example_1 : smoothHist exampleHist 1 = 5 / 2 := by
  norm_num [smoothHist, exampleHist]

theorem smooth_example_35 : smoothHist exampleHist 35 = 13 / 2 := by
  norm_num [smoothHist, exampleHist]

theorem range36 : List.range ORI_BINS =
    [0, 1, 2, 3, 4, 5, 6, 7, 8, 9, 10, 11, 12, 13, 14, 15, 16, 17,
     18, 19, 20, 21, 22, 23, 24, 25, 26, 27, 28, 29, 30, 31, 32, 33, 34, 35] := by
  decide

theorem scanCPU_example : maxBinScanCPU (smoothHist exampleHist) = (7, 0) := by
  unfold maxBinScanCPU
  rw [range36]
  norm_num [smoothHist, exampleHist]

theorem scanGPU_example : maxBinScanGPU (smoothHist exampleHist) = (7, 0) := by
  unfold maxBinScanGPU
  rw [range36]
  norm_num [smoothHist, exampleHist]

theorem peakCPU_example : peakCPU exampleHist = -(2 / 5) := by
  unfold peakCPU
  rw [scanCPU_example]
  unfold peakFromScan
  norm_num [show Int.toNat 35 = 35 from rfl, show Int.toNat 1 = 1 from rfl,
    smooth_example_1, smooth_example_35]

theorem peakGPU_example : peakGPU exampleHist = -(2 / 5) := by
  unfold peakGPU
  rw [scanGPU_example]
  unfold peakFromScan
  norm_num [show Int.toNat 35 = 35 from rfl, show Int.toNat 1 = 1 from rfl,
    smooth_example_1, smooth_example_35]

/-- C6 counterexample: for the histogram with mass 10 at bin 0 and 8 at
bin 35, both the CPU reference and the shader scan select maxBin 0 with
a larger left neighbor, the refined peak is -0.4, and the written
orientation peak * 2*pi/36 is NEGATIVE -- outside the claimed
[0, 2*pi). -/
theorem C6_counterexample :
    peakCPU exampleHist = -(2 / 5)
    ∧ peakGPU exampleHist = -(2 / 5)
    ∧ ¬ (0 ≤ (peakCPU exampleHist : ℝ) * (2 * Real.pi / (ORI_BINS : ℝ)))
    ∧ ¬ (0 ≤ (peakGPU exampleHist : ℝ) * (2 * Real.pi / (ORI_BINS : ℝ))) := by
  have hpi : (0 : ℝ) < 2 * Real.pi / (ORI_BINS : ℝ) := by
    have := Real.pi_pos
    positivity
  refine ⟨peakCPU_example, peakGPU_example, ?_, ?_⟩
  · rw [peakCPU_example]
    push_cast
    intro hc
    nlinarith
  · rw [peakGPU_example]
    push_cast
    intro hc
    nlinarith

/-- The parabolic offset is strictly inside (-1/2, 1/2) whenever the
two neighbors are strictly below the maximum value. -/
theorem peak_offset_bound (l r m : ℚ) (hl : l < m) (hr : r < m) :
    -(1 / 2 : ℚ) < 0.5 * (l - r) / (l - 2 * m + r)
    ∧ 0.5 * (l - r) / (l - 2 * m + r) < 1 / 2 := by
  have hd : l - 2 * m + r < 0 := by linarith
  constructor
  · rw [lt_div_iff_of_neg hd]
    nlinarith
  · rw [div_lt_iff_of_neg hd]
    nlinarith

/-- The scan fold preserves any predicate of the running bin index that
all scanned indices satisfy. -/
theorem scanFold_snd_pred (sh : ℕ → ℚ) (P : ℤ → Prop) :
    ∀ (l : List ℕ), (∀ i ∈ l, P (i : ℤ)) → ∀ (p : ℚ × ℤ), P p.2 →
      P ((l.foldl (fun p i => if sh i > p.1 then (sh i, (i : ℤ)) else p) p).2) := by
  intro l
  induction l with
  | nil => intro _ p hp; exact hp
  | cons i rest ih =>
    intro hall p hp
    rw [List.foldl_cons]
    refine ih (fun j hj => hall j (List.mem_cons_of_mem i hj)) _ ?_
    by_cases hgt : sh i > p.1
    · simp only [if_pos hgt]
      exact hall i (List.mem_cons_self i rest)
    · simp only [if_neg hgt]
      exact hp

theorem scanCPU_snd_le (sh : ℕ → ℚ) : (maxBinScanCPU sh).2 ≤ 35 := by
  unfold maxBinScanCPU
  refine scanFold_snd_pred sh (fun z => z ≤ 35) _ ?_ _ ?_
  · intro i hi
    have hi36 : i < 36 := List.mem_range.mp hi
    omega
  · norm_num

theorem scanGPU_snd_le (sh : ℕ → ℚ) : (maxBinScanGPU sh).2 ≤ 35 := by
  unfold maxBinScanGPU
  refine scanFold_snd_pred sh (fun z => z ≤ 35) _ ?_ _ ?_
  · intro i hi
    have hi36 : i < 36 := List.mem_range.mp hi
    omega
  · norm_num

theorem scanGPU_snd_nonneg (sh : ℕ → ℚ) : 0 ≤ (maxBinScanGPU sh).2 := by
  unfold maxBinScanGPU
  refine scanFold_snd_pred sh (fun z => 0 ≤ z) _ ?_ _ ?_
  · intro i hi
    exact Int.natCast_nonneg i
  · norm_num

/-- Range of the written orientation given a strict smoothed maximum at
a bin index within [0, 35]. -/
theorem peak_range (sh : ℕ → ℚ) (p : ℚ × ℤ) (h0 : 0 ≤ p.2) (h35 : p.2 ≤ 35)
    (hl : sh (((p.2 + (ORI_BINS : ℤ) - 1) % (ORI_BINS : ℤ)).toNat) < p.1)
    (hr : sh (((p.2 + 1) % (ORI_BINS : ℤ)).toNat) < p.1) :
    -(Real.pi / 36) < (peakFromScan sh p : ℝ) * (2 * Real.pi / (ORI_BINS : ℝ))
    ∧ (peakFromScan sh p : ℝ) * (2 * Real.pi / (ORI_BINS : ℝ)) < 2 * Real.pi := by
  obtain ⟨hlo, hhi⟩ := peak_offset_bound
    (sh (((p.2 + (ORI_BINS : ℤ) - 1) % (ORI_BINS : ℤ)).toNat))
    (sh (((p.2 + 1) % (ORI_BINS : ℤ)).toNat)) p.1 hl hr
  have hdef : peakFromScan sh p
      = (p.2 : ℚ) + 0.5 * (sh (((p.2 + (ORI_BINS : ℤ) - 1) % (ORI_BINS : ℤ)).toNat)
          - sh (((p.2 + 1) % (ORI_BINS : ℤ)).toNat))
        / (sh (((p.2 + (ORI_BINS : ℤ) - 1) % (ORI_BINS : ℤ)).toNat) - 2 * p.1
          + sh (((p.2 + 1) % (ORI_BINS : ℤ)).toNat)) := rfl
  have hc0 : (0 : ℚ) ≤ (p.2 : ℚ) := by exact_mod_cast h0
  have hc35 : (p.2 : ℚ) ≤ 35 := by exact_mod_cast h35
  have hpk_lo : -(1 / 2 : ℚ) < peakFromScan sh p := by
    rw [hdef]; linarith
  have hpk_hi : peakFromScan sh p < 71 / 2 := by
    rw [hdef]; linarith
  have hc : (0 : ℝ) < 2 * Real.pi / (ORI_BINS : ℝ) := by
    have := Real.pi_pos
    positivity
  constructor
  · have h1 : (-(1 / 2 : ℝ)) < ((peakFromScan sh p : ℚ) : ℝ) := by
      have h := Rat.cast_lt (K := ℝ) |>.mpr hpk_lo
      push_cast at h
      exact h
    have h2 := mul_lt_mul_of_pos_right h1 hc
    have h3 : (-(1 / 2 : ℝ)) * (2 * Real.pi / (ORI_BINS : ℝ)) = -(Real.pi / 36) := by
      push_cast [ORI_BINS]
      ring
    rw [h3] at h2
    exact h2
  · have h1 : ((peakFromScan sh p : ℚ) : ℝ) < (71 / 2 : ℝ) := by
      have h := Rat.cast_lt (K := ℝ) |>.mpr hpk_hi
      push_cast at h
      exact h
    have h2 := mul_lt_mul_of_pos_right h1 hc
    have h3 : ((71 / 2 : ℝ)) * (2 * Real.pi / (ORI_BINS : ℝ)) < 2 * Real.pi := by
      have hp := Real.pi_pos
      push_cast [ORI_BINS]
      nlinarith
    exact lt_trans h2 h3

/-- C6 (amended). Neither the CPU reference nor the orientation shader
wraps the refined value into [0, 2*pi): whenever the scan selects a bin
in [0, 35] whose circular neighbors in the smoothed histogram are
strictly below the scan maximum, the written orientation
peak * 2*pi/36 lies in (-pi/36, 2*pi) -- it can be negative (the
claimed lower bound 0 fails; see the counterexample) while the strict
upper bound 2*pi does hold. -/
theorem C6_orientation_range (hist : ℕ → ℚ) :
    ((0 ≤ (maxBinScanCPU (smoothHist hist)).2 →
      smoothHist hist ((((maxBinScanCPU (smoothHist hist)).2 + (ORI_BINS : ℤ) - 1)
          % (ORI_BINS : ℤ)).toNat) < (maxBinScanCPU (smoothHist hist)).1 →
      smoothHist hist ((((maxBinScanCPU (smoothHist hist)).2 + 1)
          % (ORI_BINS : ℤ)).toNat) < (maxBinScanCPU (smoothHist hist)).1 →
      (-(Real.pi / 36) < (peakCPU hist : ℝ) * (2 * Real.pi / (ORI_BINS : ℝ))
        ∧ (peakCPU hist : ℝ) * (2 * Real.pi / (ORI_BINS : ℝ)) < 2 * Real.pi)))
    ∧ ((smoothHist hist ((((maxBinScanGPU (smoothHist hist)).2 + (ORI_BINS : ℤ) - 1)
          % (ORI_BINS : ℤ)).toNat) < (maxBinScanGPU (smoothHist hist)).1 →
      smoothHist hist ((((maxBinScanGPU (smoothHist hist)).2 + 1)
          % (ORI_BINS : ℤ)).toNat) < (maxBinScanGPU (smoothHist hist)).1 →
      (-(Real.pi / 36) < (peakGPU hist : ℝ) * (2 * Real.pi / (ORI_BINS : ℝ))
        ∧ (peakGPU hist : ℝ) * (2 * Real.pi / (ORI_BINS : ℝ)) < 2 * Real.pi))) := by
  constructor
  · intro h0 hl hr
    exact peak_range (smoothHist hist) (maxBinScanCPU (smoothHist hist)) h0
      (scanCPU_snd_le (smoothHist hist)) hl hr
  · intro hl hr
    exact peak_range (smoothHist hist) (maxBinScanGPU (smoothHist hist))
      (scanGPU_snd_nonneg (smoothHist hist)) (scanGPU_snd_le (smoothHist hist)) hl hr

/-- Witness for C6_orientation_range at the concrete example
histogram: all hypotheses hold there (max bin 0, neighbors 6.5 and 2.5
strictly below the maximum 7). -/
theorem C6_orientation_range_witness :
    -(Real.pi / 36) < (peakCPU exampleHist : ℝ) * (2 * Real.pi / (ORI_BINS : ℝ))
    ∧ (peakCPU exampleHist : ℝ) * (2 * Real.pi / (ORI_BINS : ℝ)) < 2 * Real.pi := by
  refine (C6_orientation_range exampleHist).1 ?_ ?_ ?_
  · rw [scanCPU_example]
  · rw [scanCPU_example]
    norm_num [show Int.toNat 35 = 35 from rfl, smooth_example_35]
  · rw [scanCPU_example]
    norm_num [show Int.toNat 1 = 1 from rfl, smooth_example_1]

/-! ## Descriptor normalization (C7)
Sources: computeDescriptorsImpl of the CPU reference, lines 450-458:
first L2 normalization (norm = sqrt(sum sq) + 1e-7), per-element clamp
hist[i] = min(0.2, hist[i]/norm), then a second L2 normalization with
the same epsilon. The float GPU shader (descriptor.wgsl lines 124-141)
is the same computation with epsilon 1e-5. Square-root values are
explicit inputs constrained by IsSqrtOf. -/

/-- Sum of squared components, accumulated like the norm loops. -/
def sumSq (v : Descr) : ℚ :=
  (List.finRange DESC_DIM).foldl (fun acc k => acc + v k * v k) 0

/-- First normalization and clamp: component i becomes
min(0.2, hist[i] / (s1 + 1e-7)) where s1 = sqrt(sumSq hist). -/
def descClamp (hist : Descr) (s1 : ℚ) : Descr :=
  fun i => min 0.2 (hist i / (s1 + 1 / 10 ^ 7))

/-- Second normalization: component i becomes
clamped[i] / (s2 + 1e-7) where s2 = sqrt(sumSq clamped). -/
def descFinal (hist : Descr) (s1 s2 : ℚ) : Descr :=
  fun i => descClamp hist s1 i / (s2 + 1 / 10 ^ 7)

theorem sumSq_eq_sum (v : Descr) : sumSq v = ∑ k : Fin DESC_DIM, v k * v k := by
  unfold sumSq
  rw [foldl_add_eq_sum (fun k => v k * v k) (List.finRange DESC_DIM) 0, zero_add,
    ← Fin.sum_univ_def]

theorem sumSq_single (c : ℚ) :
    sumSq (fun k => if (k : ℕ) = 0 then c else 0) = c * c := by
  rw [sumSq_eq_sum]
  have h1 : ∀ k : Fin DESC_DIM,
      (if (k : ℕ) = 0 then c else 0) * (if (k : ℕ) = 0 then c else 0)
        = if k = (0 : Fin DESC_DIM) then c * c else 0 := by
    intro k
    by_cases h : (k : ℕ) = 0
    · have hk : k = (0 : Fin DESC_DIM) := by
        apply Fin.ext
        simpa using h
      simp [h, hk]
    · have hk : k ≠ (0 : Fin DESC_DIM) := by
        intro hc
        exact h (by rw [hc]; rfl)
      simp [h, hk]
  rw [Finset.sum_congr rfl (fun k _ => h1 k)]
  simp

/-- C7 (amended): every component is at most 0.2 after the clamp, and
the second normalization bounds each component only by
0.2 / (s2 + 1e-7) with s2 the norm of the clamped vector -- a value
that exceeds 0.2 + 1e-6 whenever s2 is appreciably below 1, so the
claimed absolute bound fails in general (see the counterexample). -/
theorem C7_descriptor_clamp_bound (hist : Descr) (s1 s2 : ℚ) (hs2 : 0 ≤ s2)
    (i : Fin DESC_DIM) :
    descClamp hist s1 i ≤ 0.2
    ∧ descFinal hist s1 s2 i ≤ 0.2 / (s2 + 1 / 10 ^ 7) := by
  have hpos : (0 : ℚ) < s2 + 1 / 10 ^ 7 := by
    have : (0 : ℚ) < 1 / 10 ^ 7 := by norm_num
    linarith
  constructor
  · exact min_le_left _ _
  · unfold descFinal
    gcongr
    exact min_le_left _ _

/-- The clamped vector of the C7 counterexample input: single entry
0.2, zero elsewhere. -/
theorem descClamp_oneDesc :
    descClamp oneDesc 1 = (fun k : Fin DESC_DIM => if (k : ℕ) = 0 then (0.2 : ℚ) else 0) := by
  funext k
  unfold descClamp oneDesc
  by_cases h : (k : ℕ) = 0
  · rw [if_pos h, if_pos h]
    norm_num
  · rw [if_neg h, if_neg h]
    norm_num

/-- C7 counterexample: the histogram with a single unit entry has norm
exactly 1, clamps to a single 0.2 with norm exactly 1/5, and the second
normalization produces component 0.2/(1/5 + 1e-7) = 2000000/2000001,
far above the claimed bound 0.2 + 1e-6. -/
theorem C7_counterexample :
    IsSqrtOf 1 (sumSq oneDesc)
    ∧ IsSqrtOf (1 / 5) (sumSq (descClamp oneDesc 1))
    ∧ 0.2 + 1 / 10 ^ 6 < descFinal oneDesc 1 (1 / 5) 0 := by
  refine ⟨⟨by norm_num, ?_⟩, ⟨by norm_num, ?_⟩, ?_⟩
  · show (1 : ℚ) * 1 = sumSq oneDesc
    have h : sumSq oneDesc = 1 * 1 := sumSq_single 1
    rw [h]
  · rw [descClamp_oneDesc]
    have h := sumSq_single (0.2 : ℚ)
    rw [h]
    norm_num
  · unfold descFinal
    rw [descClamp_oneDesc]
    norm_num

/-- Witness for C7_descriptor_clamp_bound at the concrete single-entry
histogram with s2 = 1/5. -/
theorem C7_descriptor_clamp_bound_witness :
    ((0 : ℚ) ≤ 1 / 5)
    ∧ descClamp oneDesc 1 0 ≤ 0.2
    ∧ descFinal oneDesc 1 (1 / 5) 0 ≤ 0.2 / (1 / 5 + 1 / 10 ^ 7) :=
  ⟨by norm_num,
    (C7_descriptor_clamp_bound oneDesc 1 (1 / 5) (by norm_num) 0).1,
    (C7_descriptor_clamp_bound oneDesc 1 (1 / 5) (by norm_num) 0).2⟩

/-! ## Descriptor Gaussian weighting (C8)
Sources: computeDescriptorsImpl of the CPU reference, line 424:
weight = mag * Math.exp(-(r*r + c*c) / 32); the GPU shaders weight by
exp(-(r*r + c*c) / DESC_GAUSSIAN_WEIGHT_SIGMA_SQ), whose value lives in
shaders/common/constants.wgsl, a file that is not under src. -/

/-- Exponent of the CPU reference's descriptor-sample weight:
-(r^2 + c^2) / 32 (part of computeDescriptorsImpl). -/
def cpuDescWeightExponent (r c : ℤ) : ℚ := -((r * r + c * c : ℤ) : ℚ) / 32

/-- Modelled from the spec: the GPU descriptor shaders read the divisor
DESC_GAUSSIAN_WEIGHT_SIGMA_SQ from shaders/common/constants.wgsl, which
is missing from src; the spec fixes the weight to
exp(-(r^2 + c^2)/128), so the modelled exponent is -(r^2 + c^2)/128. -/
def specDescWeightExponent (r c : ℤ) : ℚ := -((r * r + c * c : ℤ) : ℚ) / 128

/-- C8 counterexample: at the accepted sample offset (r, c) = (4, 0)
with magnitude 1, the CPU reference's weight exp(-16/32) = exp(-1/2)
differs from the claimed exp(-16/128) = exp(-1/8). -/
theorem C8_counterexample :
    cpuDescWeightExponent 4 0 = -(1 / 2)
    ∧ specDescWeightExponent 4 0 = -(1 / 8)
    ∧ 1 * Real.exp ((cpuDescWeightExponent 4 0 : ℝ))
        ≠ 1 * Real.exp ((specDescWeightExponent 4 0 : ℝ)) := by
  refine ⟨by norm_num [cpuDescWeightExponent], by norm_num [specDescWeightExponent], ?_⟩
  intro hc
  rw [one_mul, one_mul, Real.exp_eq_exp] at hc
  have h1 : ((cpuDescWeightExponent 4 0 : ℚ) : ℝ) = -(1 / 2) := by
    norm_num [cpuDescWeightExponent]
  have h2 : ((specDescWeightExponent 4 0 : ℚ) : ℝ) = -(1 / 8) := by
    norm_num [specDescWeightExponent]
  rw [h1, h2] at hc
  norm_num at hc

/-- C8 (amended): the CPU reference's exponent is four times the
spec's GPU exponent at every grid offset, so its weight is the fourth
power of the spec weight: exp(-(r^2+c^2)/32) = exp(-(r^2+c^2)/128)^4.
The two agree only at r = c = 0. -/
theorem C8_cpu_weight_pow (r c : ℤ) :
    ((cpuDescWeightExponent r c : ℚ) : ℝ) = 4 * ((specDescWeightExponent r c : ℚ) : ℝ)
    ∧ Real.exp ((cpuDescWeightExponent r c : ℝ))
        = (Real.exp ((specDescWeightExponent r c : ℝ))) ^ (4 : ℕ) := by
  have h : ((cpuDescWeightExponent r c : ℚ) : ℝ)
      = 4 * ((specDescWeightExponent r c : ℚ) : ℝ) := by
    unfold cpuDescWeightExponent specDescWeightExponent
    push_cast
    ring
  refine ⟨h, ?_⟩
  rw [h, show ((4 : ℝ) * ((specDescWeightExponent r c : ℚ) : ℝ))
      = ((4 : ℕ) : ℝ) * ((specDescWeightExponent r c : ℚ) : ℝ) by norm_num,
    ← Real.exp_nat_mul]

/-! ## Binary feature file round-trip (C9)
Sources: serializeBinary and loadBinary of the feature I/O utility.
The ArrayBuffer is modelled as a list of 4-byte slots in file order:
every DataView offset in the source is a multiple of 4 (header fields
at 0,4,...,20, reserved at 24/28, then per-record fields at stride
532 = 4 * 133), and the four magic bytes occupy slot 0. A slot records
which accessor wrote it; float fields carry their values directly --
the claim's f32-representability hypothesis makes setFloat32 followed
by getFloat32 the identity, so bitwise identity of stored floats is
value identity in the model. setUint32/setInt32 truncation to 32 bits
is modelled explicitly. loadBinary advances a running offset by the
stride each iteration, modelled by dropping the consumed slots. -/

/-- One 4-byte slot of the file, tagged by the accessor that wrote it. -/
inductive Slot where
  | uw (n : ℕ)
  | iw (z : ℤ)
  | fw (q : ℚ)
deriving DecidableEq

/-- getUint32 view of a slot. -/
def Slot.asU : Slot → ℕ
  | uw n => n
  | _ => 0

/-- getInt32 view of a slot. -/
def Slot.asI : Slot → ℤ
  | iw z => z
  | _ => 0

/-- getFloat32 view of a slot. -/
def Slot.asF : Slot → ℚ
  | fw q => q
  | _ => 0

/-- Two's-complement wrap of setInt32. -/
def wrap32 (z : ℤ) : ℤ := (z + 2 ^ 31) % 2 ^ 32 - 2 ^ 31

/-- The WSFT magic: bytes W, S, F, T at offsets 0..3, read back as the
little-endian 32-bit word of slot 0. -/
def MAGIC : ℕ := 0x57 + 0x53 * 2 ^ 8 + 0x46 * 2 ^ 16 + 0x54 * 2 ^ 24

/-- Keypoint record of the binary format (and of the in-memory keypoint
list handed to serializeBinary). -/
structure StoredKeypoint where
  x : ℚ
  y : ℚ
  scale : ℚ
  orientation : ℚ
  octave : ℤ
  descriptor : Fin DESC_DIM → ℚ

/-- Per-record writes of serializeBinary (offsets +0,+4,+8,+12 float,
+16 int32, then 128 floats). -/
def serializeKeypoint (kp : StoredKeypoint) : List Slot :=
  [Slot.fw kp.x, Slot.fw kp.y, Slot.fw kp.scale, Slot.fw kp.orientation,
   Slot.iw (wrap32 kp.octave)]
  ++ (List.finRange DESC_DIM).map (fun j => Slot.fw (kp.descriptor j))

/-- The record section of the file, in list order. -/
def serializeFeatures : List StoredKeypoint → List Slot
  | [] => []
  | kp :: rest => serializeKeypoint kp ++ serializeFeatures rest

/-- serializeBinary: 32-byte header (magic, version 1, count, dim 128,
width, height, two reserved zero words) followed by the records. -/
def serializeBinary (kps : List StoredKeypoint) (width height : ℕ) : List Slot :=
  [Slot.uw MAGIC, Slot.uw 1, Slot.uw (kps.length % 2 ^ 32), Slot.uw 128,
   Slot.uw (width % 2 ^ 32), Slot.uw (height % 2 ^ 32), Slot.uw 0, Slot.uw 0]
  ++ serializeFeatures kps

/-- Per-record reads of loadBinary at a record start. -/
def decodeKeypoint (slots : List Slot) : StoredKeypoint :=
  { x := (slots.getD 0 (Slot.fw 0)).asF,
    y := (slots.getD 1 (Slot.fw 0)).asF,
    scale := (slots.getD 2 (Slot.fw 0)).asF,
    orientation := (slots.getD 3 (Slot.fw 0)).asF,
    octave := (slots.getD 4 (Slot.fw 0)).asI,
    descriptor := fun j => (slots.getD (5 + (j : ℕ)) (Slot.fw 0)).asF }

/-- The record-reading loop of loadBinary: count iterations, each
decoding one record and advancing by the stride 5 + dim slots
(= 20 + dim*4 bytes). -/
def loadFeatures (dim : ℕ) : ℕ → List Slot → List StoredKeypoint
  | 0, _ => []
  | n + 1, slots => decodeKeypoint slots :: loadFeatures dim n (slots.drop (5 + dim))

/-- Result object of loadBinary. -/
structure LoadedFile where
  keypoints : List StoredKeypoint
  width : ℕ
  height : ℕ
  version : ℕ

/-- loadBinary: checks the magic (throw modelled as none), then reads
version, count, dim, width and height from the header and decodes
count records. -/
def loadBinary (slots : List Slot) : Option LoadedFile :=
  if slots.getD 0 (Slot.uw 0) ≠ Slot.uw MAGIC then none
  else some
    { keypoints := loadFeatures ((slots.getD 3 (Slot.uw 0)).asU)
        ((slots.getD 2 (Slot.uw 0)).asU) (slots.drop 8),
      width := (slots.getD 4 (Slot.uw 0)).asU,
      height := (slots.getD 5 (Slot.uw 0)).asU,
      version := (slots.getD 1 (Slot.uw 0)).asU }

theorem wrap32_eq_self (z : ℤ) (h1 : -(2 ^ 31) ≤ z) (h2 : z < 2 ^ 31) :
    wrap32 z = z := by
  unfold wrap32
  omega

theorem serializeKeypoint_length (kp : StoredKeypoint) :
    (serializeKeypoint kp).length = 133 := by
  simp [serializeKeypoint]

theorem map_finRange_getD {α : Type} (f : Fin DESC_DIM → α) (j : Fin DESC_DIM) (d : α) :
    ((List.finRange DESC_DIM).map f).getD (j : ℕ) d = f j := by
  have hlt : (j : ℕ) < ((List.finRange DESC_DIM).map f).length := by
    simp
  rw [List.getD_eq_getElem _ _ hlt]
  rw [List.getElem_map]
  congr 1
  apply Fin.ext
  simp

theorem decode_serializeKeypoint (kp : StoredKeypoint) (rest : List Slot)
    (h1 : -(2 ^ 31) ≤ kp.octave) (h2 : kp.octave < 2 ^ 31) :
    decodeKeypoint (serializeKeypoint kp ++ rest) = kp := by
  have hdesc : ∀ j : Fin DESC_DIM,
      ((serializeKeypoint kp ++ rest).getD (5 + (j : ℕ)) (Slot.fw 0))
        = Slot.fw (kp.descriptor j) := by
    intro j
    have hj : (j : ℕ) < 128 := j.isLt
    have hlen : 5 + (j : ℕ) < (serializeKeypoint kp).length := by
      rw [serializeKeypoint_length]
      omega
    rw [List.getD_append _ _ _ _ hlen]
    show (([Slot.fw kp.x, Slot.fw kp.y, Slot.fw kp.scale, Slot.fw kp.orientation,
      Slot.iw (wrap32 kp.octave)] : List Slot)
        ++ (List.finRange DESC_DIM).map (fun j => Slot.fw (kp.descriptor j))).getD
        (5 + (j : ℕ)) (Slot.fw 0) = _
    rw [List.getD_append_right _ _ _ _ (by simp)]
    have h5 : 5 + (j : ℕ)
        - ([Slot.fw kp.x, Slot.fw kp.y, Slot.fw kp.scale, Slot.fw kp.orientation,
            Slot.iw (wrap32 kp.octave)] : List Slot).length = (j : ℕ) := by
      simp
    rw [h5, map_finRange_getD]
  cases kp with
  | mk x y scale orientation octave descriptor =>
    unfold decodeKeypoint
    simp only [StoredKeypoint.mk.injEq]
    refine ⟨rfl, rfl, rfl, rfl, ?_, ?_⟩
    · have hoct : (serializeKeypoint ⟨x, y, scale, orientation, octave, descriptor⟩
          ++ rest).getD 4 (Slot.fw 0) = Slot.iw (wrap32 octave) := by
        rw [List.getD_append _ _ _ _ (by rw [serializeKeypoint_length]; omega)]
        rfl
      rw [hoct]
      show wrap32 octave = octave
      exact wrap32_eq_self octave h1 h2
    · funext j
      rw [hdesc j]
      rfl

theorem loadFeatures_serializeFeatures : ∀ (kps : List StoredKeypoint),
    (∀ kp ∈ kps, -(2 ^ 31) ≤ kp.octave ∧ kp.octave < 2 ^ 31) →
    loadFeatures 128 kps.length (serializeFeatures kps) = kps := by
  intro kps
  induction kps with
  | nil => intro _; rfl
  | cons kp rest ih =>
    intro hall
    show decodeKeypoint (serializeKeypoint kp ++ serializeFeatures rest)
        :: loadFeatures 128 rest.length
          ((serializeKeypoint kp ++ serializeFeatures rest).drop (5 + 128)) = kp :: rest
    obtain ⟨ho1, ho2⟩ := hall kp (List.mem_cons_self kp rest)
    have hdec := decode_serializeKeypoint kp (serializeFeatures rest) ho1 ho2
    have hdrop : (serializeKeypoint kp ++ serializeFeatures rest).drop (5 + 128)
        = serializeFeatures rest := by
      have hl : (serializeKeypoint kp).length = 5 + 128 := serializeKeypoint_length kp
      rw [← hl, List.drop_left]
    rw [hdec, hdrop, ih (fun q hq => hall q (List.mem_cons_of_mem kp hq))]

/-- C9 (confirmed): for any keypoint list with f32-representable float
fields and int32-range octaves, loading the serialized binary buffer
returns the same keypoint list (bitwise-identical fields, including all
128 descriptor components), the same width and height, and version 1 --
provided the count and dimensions fit in 32 bits as setUint32 truncates
them. -/
theorem C9_binary_roundtrip (kps : List StoredKeypoint) (w h : ℕ)
    (hw : w < 2 ^ 32) (hh : h < 2 ^ 32) (hc : kps.length < 2 ^ 32)
    (hoct : ∀ kp ∈ kps, -(2 ^ 31) ≤ kp.octave ∧ kp.octave < 2 ^ 31) :
    loadBinary (serializeBinary kps w h)
      = some ⟨kps, w, h, 1⟩ := by
  unfold loadBinary serializeBinary
  rw [if_neg (by simp)]
  have hc8 : kps.length % 2 ^ 32 = kps.length := Nat.mod_eq_of_lt hc
  have hw8 : w % 2 ^ 32 = w := Nat.mod_eq_of_lt hw
  have hh8 : h % 2 ^ 32 = h := Nat.mod_eq_of_lt hh
  congr 1
  simp only [LoadedFile.mk.injEq]
  refine ⟨?_, ?_, ?_, ?_⟩
  · show loadFeatures
        ((((([Slot.uw MAGIC, Slot.uw 1, Slot.uw (kps.length % 2 ^ 32), Slot.uw 128,
          Slot.uw (w % 2 ^ 32), Slot.uw (h % 2 ^ 32), Slot.uw 0, Slot.uw 0] : List Slot)
          ++ serializeFeatures kps)).getD 3 (Slot.uw 0)).asU)
        ((((([Slot.uw MAGIC, Slot.uw 1, Slot.uw (kps.length % 2 ^ 32), Slot.uw 128,
          Slot.uw (w % 2 ^ 32), Slot.uw (h % 2 ^ 32), Slot.uw 0, Slot.uw 0] : List Slot)
          ++ serializeFeatures kps)).getD 2 (Slot.uw 0)).asU)
        (((([Slot.uw MAGIC, Slot.uw 1, Slot.uw (kps.length % 2 ^ 32), Slot.uw 128,
          Slot.uw (w % 2 ^ 32), Slot.uw (h % 2 ^ 32), Slot.uw 0, Slot.uw 0] : List Slot)
          ++ serializeFeatures kps)).drop 8) = kps
    have hg3 : ((([Slot.uw MAGIC, Slot.uw 1, Slot.uw (kps.length % 2 ^ 32), Slot.uw 128,
        Slot.uw (w % 2 ^ 32), Slot.uw (h % 2 ^ 32), Slot.uw 0, Slot.uw 0] : List Slot)
        ++ serializeFeatures kps).getD 3 (Slot.uw 0)).asU = 128 := rfl
    have hg2 : ((([Slot.uw MAGIC, Slot.uw 1, Slot.uw (kps.length % 2 ^ 32), Slot.uw 128,
        Slot.uw (w % 2 ^ 32), Slot.uw (h % 2 ^ 32), Slot.uw 0, Slot.uw 0] : List Slot)
        ++ serializeFeatures kps).getD 2 (Slot.uw 0)).asU = kps.length % 2 ^ 32 := rfl
    have hdrop : (([Slot.uw MAGIC, Slot.uw 1, Slot.uw (kps.length % 2 ^ 32), Slot.uw 128,
        Slot.uw (w % 2 ^ 32), Slot.uw (h % 2 ^ 32), Slot.uw 0, Slot.uw 0] : List Slot)
        ++ serializeFeatures kps).drop 8 = serializeFeatures kps := rfl
    rw [hg3, hg2, hdrop, hc8]
    exact loadFeatures_serializeFeatures kps hoct
  · show w % 2 ^ 32 = w
    exact hw8
  · show h % 2 ^ 32 = h
    exact hh8
  · rfl

/-- Witness for C9_binary_roundtrip on a concrete one-keypoint list. -/
theorem C9_binary_roundtrip_witness :
    (640 : ℕ) < 2 ^ 32 ∧ (480 : ℕ) < 2 ^ 32
    ∧ loadBinary (serializeBinary [⟨1, 2, 3, 4, -1, fun _ => 7⟩] 640 480)
        = some ⟨[⟨1, 2, 3, 4, -1, fun _ => 7⟩], 640, 480, 1⟩ := by
  refine ⟨by norm_num, by norm_num, ?_⟩
  exact C9_binary_roundtrip [⟨1, 2, 3, 4, -1, fun _ => 7⟩] 640 480 (by norm_num)
    (by norm_num) (by norm_num)
    (by
      intro kp hk
      rw [List.mem_singleton.mp hk]
      constructor <;> norm_num)
